import Mathlib

/-!
Verification of the restore (mount) core of the ffs log-structured flash
filesystem, `src/libs/ffs/src/ffs_restore.c`.

The development shallowly embeds the restore core.  Functions defined in
`ffs_restore.c` are translated directly from the C source and carry the C
function's name.  Collaborator functions that live in other files of the
repository (the flash read wrapper, the allocators, the hash index, the
inode/block helpers, `ffs_misc_*`, `ffs_area_*`, `ffs_format_area`) are
modelled from the specification; each such definition carries a doc comment
beginning with `Modelled from the spec:`.

State is the process-wide restore state (object index, area table, scratch
index, root pointer, next id, allocator pools).  A ghost `trace` field
records which final restore phases ran, in order; no modelled or translated
behaviour depends on it.  The C code stores the scan cursor in
`area->fa_cur`; the scan below threads the cursor as an explicit argument
(no later phase of the restore reads `fa_cur` back).
-/

/-- Sentinel for an absent object id (`FFS_ID_NONE`, 32-bit all-ones). -/
def FFS_ID_NONE : Nat := 4294967295

/-- Sentinel for an absent area id / area index (`FFS_AREA_ID_NONE`). -/
def FFS_AREA_ID_NONE : Nat := 255

/-- Object type tag for inodes (`FFS_OBJECT_TYPE_INODE`). -/
def FFS_OBJECT_TYPE_INODE : Nat := 1

/-- Object type tag for data blocks (`FFS_OBJECT_TYPE_BLOCK`). -/
def FFS_OBJECT_TYPE_BLOCK : Nat := 2

/-- Modelled from the spec: size of `struct ffs_disk_area`, the fixed area
header that records begin after.  A positive constant. -/
def DISK_AREA_SIZE : Nat := 8

/-- Modelled from the spec: size of `struct ffs_disk_inode`, the fixed part
of an inode record (magic, id, seq, parent id, flags, filename length). -/
def DISK_INODE_SIZE : Nat := 20

/-- Modelled from the spec: size of `struct ffs_disk_block`, the fixed part
of a block record (magic, id, seq, inode id, flags, data length). -/
def DISK_BLOCK_SIZE : Nat := 24

/-- Modelled from the spec: capacity of the inode allocator pool.  The spec
makes pool exhaustion (`enomem`) a first-class failure; the configured
capacity itself is external configuration, so a small concrete value is
used. -/
def FFS_CONFIG_NUM_INODES : Nat := 4

/-- Modelled from the spec: capacity of the block allocator pool. -/
def FFS_CONFIG_NUM_BLOCKS : Nat := 4

/-- Modelled from the spec: capacity of the area table
(`ffs_misc_set_num_areas` fails with `enomem` past it). -/
def FFS_CONFIG_MAX_AREAS : Nat := 8

/-- Return codes of the restore core (`FFS_EOK` is `ok`; the others are the
nonzero `FFS_E*` codes). -/
inductive FfsRc where
  | ok
  | eempty
  | erange
  | ecorrupt
  | enomem
  | eflash
  | enoent
  | einval
deriving DecidableEq, Repr

/-- Ghost marker for the final phases of `ffs_restore_full`. -/
inductive Phase where
  | pVScratch
  | pSweep
  | pVRoot
  | pSetMax
deriving DecidableEq, Repr

/-- RAM representation of an inode (`struct ffs_inode`).  The `fi_flags`
bitmask is flattened into the three independent flag bits; cross references
are stable object ids, per the spec's arena-and-stable-id design note. -/
structure Inode where
  fi_id : Nat
  fi_seq : Nat
  fi_area_idx : Nat
  fi_area_offset : Nat
  fi_deleted : Bool
  fi_dummy : Bool
  fi_directory : Bool
  fi_parent : Option Nat
  fi_refcnt : Nat
  fi_filename_len : Nat
  fi_filename : Nat
  fi_child_list : List Nat
  fi_block_list : List Nat
deriving DecidableEq, Repr

/-- RAM representation of a data block (`struct ffs_block`).  `fb_inode` is
the owning-inode pointer (`none` models a null pointer). -/
structure Block where
  fb_id : Nat
  fb_seq : Nat
  fb_area_idx : Nat
  fb_area_offset : Nat
  fb_deleted : Bool
  fb_dummy : Bool
  fb_data_len : Nat
  fb_data : Nat
  fb_inode : Option Nat
deriving DecidableEq, Repr

/-- An entry of the object index (`struct ffs_object`, discriminated by the
type tag). -/
inductive FfsObject where
  | inode (i : Inode)
  | block (b : Block)
deriving DecidableEq, Repr

/-- Common id of an object (`fo_id`). -/
def FfsObject.fo_id : FfsObject → Nat
  | .inode i => i.fi_id
  | .block b => b.fb_id

/-- An entry of the area table (`struct ffs_area`). -/
structure Area where
  fa_offset : Nat
  fa_length : Nat
  fa_cur : Nat
  fa_gc_seq : Nat
  fa_id : Nat
deriving DecidableEq, Repr

/-- On-disk inode record fields (`struct ffs_disk_inode` plus its trailing
filename bytes, the latter abstracted to a token). -/
structure DiskInode where
  fdi_id : Nat
  fdi_seq : Nat
  fdi_parent_id : Nat
  fdi_deleted : Bool
  fdi_dummy : Bool
  fdi_directory : Bool
  fdi_filename_len : Nat
  fdi_filename : Nat
deriving DecidableEq, Repr

/-- On-disk block record fields (`struct ffs_disk_block` plus its trailing
payload bytes, the latter abstracted to a token). -/
structure DiskBlock where
  fdb_id : Nat
  fdb_seq : Nat
  fdb_inode_id : Nat
  fdb_deleted : Bool
  fdb_dummy : Bool
  fdb_data_len : Nat
  fdb_data : Nat
deriving DecidableEq, Repr

/-- Blank disk inode (value of an unused union arm). -/
def blankDiskInode : DiskInode :=
  { fdi_id := 0, fdi_seq := 0, fdi_parent_id := 0, fdi_deleted := false,
    fdi_dummy := false, fdi_directory := false, fdi_filename_len := 0,
    fdi_filename := 0 }

/-- Blank disk block (value of an unused union arm). -/
def blankDiskBlock : DiskBlock :=
  { fdb_id := 0, fdb_seq := 0, fdb_inode_id := 0, fdb_deleted := false,
    fdb_dummy := false, fdb_data_len := 0, fdb_data := 0 }

/-- A typed disk object (`struct ffs_disk_object`).  `fdo_type` is kept as a
plain number so that the reader's guarantee that it is one of the two valid
tags is a real statement; the C union is modelled as a product with the
unused arm blank. -/
structure DiskObject where
  fdo_type : Nat
  fdo_disk_inode : DiskInode
  fdo_disk_block : DiskBlock
  fdo_area_idx : Nat
  fdo_offset : Nat
deriving DecidableEq, Repr

/-- An area descriptor supplied to `ffs_restore_full`
(`struct ffs_area_desc`). -/
structure AreaDesc where
  fad_offset : Nat
  fad_length : Nat
deriving DecidableEq, Repr

/-- Parsed area header (`struct ffs_disk_area`, magic stripped). -/
structure DiskArea where
  fda_id : Nat
  fda_gc_seq : Nat
deriving DecidableEq, Repr

/-- Result of reading the fixed area header at a flash offset. -/
inductive HeaderRead where
  | ok (da : DiskArea)
  | badMagic
  | ioError
deriving DecidableEq, Repr

/-- What a record parse finds at one offset inside an area. -/
inductive AreaCell where
  | inodeRec (d : DiskInode)
  | blockRec (d : DiskBlock)
  | erased
  | garbage
  | ioFail
deriving DecidableEq, Repr

/-- Modelled from the spec: the flash medium, §4.A/§6.  `headerAt` is the
parse of the fixed area header at an absolute flash offset; `cellAt aoff
rel` is what a record parse finds at relative offset `rel` inside the area
starting at absolute offset `aoff`; `canFormat` says whether reformatting an
area at an absolute offset succeeds.  Range checking against the declared
area length (a read crossing it returns `range`) is imposed by the reader
itself, per §4.A. -/
structure Flash where
  headerAt : Nat → HeaderRead
  cellAt : Nat → Nat → AreaCell
  canFormat : Nat → Bool

/-- Process-wide restore state (§3 of the spec): the object index
(`ffs_hash`, modelled as one list), the area table, the scratch area index,
the root directory pointer, `ffs_next_id`, the allocator pools, the derived
maximum block payload, and the ghost phase trace. -/
structure FfsState where
  ffs_hash : List FfsObject
  ffs_areas : List Area
  ffs_scratch_area_idx : Nat
  ffs_root_dir : Option Nat
  ffs_next_id : Nat
  inode_pool : Nat
  block_pool : Nat
  max_block_data_size : Nat
  trace : List Phase
deriving DecidableEq, Repr

/-- Whether an object is an inode carrying the given id. -/
def isInodeWithId (o : FfsObject) (id : Nat) : Bool :=
  match o with
  | .inode i => i.fi_id = id
  | .block _ => false

/-- Whether an object is a block carrying the given id. -/
def isBlockWithId (o : FfsObject) (id : Nat) : Bool :=
  match o with
  | .inode _ => false
  | .block b => b.fb_id = id

/-- Whether an object is a block whose owning-inode pointer is the given
inode id. -/
def isBlockOwnedBy (o : FfsObject) (iid : Nat) : Bool :=
  match o with
  | .inode _ => false
  | .block b => b.fb_inode = some iid

/-- Modelled from the spec: raw index lookup by id (the hash table is keyed
by `id` over both object kinds). -/
def ffs_hash_find (s : FfsState) (id : Nat) : Option FfsObject :=
  s.ffs_hash.find? (fun o => o.fo_id = id)

/-- Modelled from the spec: find-inode-by-id.  A miss is the internal
`enoent` signal; an id held by an object of the other kind is an invalid
lookup. -/
def ffs_hash_find_inode (s : FfsState) (id : Nat) : Except FfsRc Inode :=
  match ffs_hash_find s id with
  | none => .error .enoent
  | some (.inode i) => .ok i
  | some (.block _) => .error .einval

/-- Modelled from the spec: find-block-by-id. -/
def ffs_hash_find_block (s : FfsState) (id : Nat) : Except FfsRc Block :=
  match ffs_hash_find s id with
  | none => .error .enoent
  | some (.block b) => .ok b
  | some (.inode _) => .error .einval

/-- Modelled from the spec: insert an object into the index. -/
def ffs_hash_insert (o : FfsObject) (s : FfsState) : FfsState :=
  { s with ffs_hash := o :: s.ffs_hash }

/-- Replace the first list entry holding the given id (in-place mutation of
the found object). -/
def replaceById : List FfsObject → Nat → FfsObject → List FfsObject
  | [], _, _ => []
  | o :: rest, id, o' =>
      if o.fo_id = id then o' :: rest else o :: replaceById rest id o'

/-- Apply `f` to the first inode entry of a list carrying the given id. -/
def modifyInodeList : List FfsObject → Nat → (Inode → Inode) → List FfsObject
  | [], _, _ => []
  | .inode i :: rest, id, f =>
      if i.fi_id = id then .inode (f i) :: rest
      else .inode i :: modifyInodeList rest id f
  | .block b :: rest, id, f => .block b :: modifyInodeList rest id f

/-- Apply `f` to the first block entry of a list carrying the given id. -/
def modifyBlockList : List FfsObject → Nat → (Block → Block) → List FfsObject
  | [], _, _ => []
  | .block b :: rest, id, f =>
      if b.fb_id = id then .block (f b) :: rest
      else .block b :: modifyBlockList rest id f
  | .inode i :: rest, id, f => .inode i :: modifyBlockList rest id f

/-- Apply `f` to the first inode entry with the given id (in-place mutation
through a pointer in the C code). -/
def modifyInode (s : FfsState) (id : Nat) (f : Inode → Inode) : FfsState :=
  { s with ffs_hash := modifyInodeList s.ffs_hash id f }

/-- Apply `f` to the first block entry with the given id. -/
def modifyBlock (s : FfsState) (id : Nat) (f : Block → Block) : FfsState :=
  { s with ffs_hash := modifyBlockList s.ffs_hash id f }

/-- Blank inode as produced by the allocator (`ffs_inode_alloc` zeroes the
object). -/
def blankInode : Inode :=
  { fi_id := 0, fi_seq := 0, fi_area_idx := 0, fi_area_offset := 0,
    fi_deleted := false, fi_dummy := false, fi_directory := false,
    fi_parent := none, fi_refcnt := 0, fi_filename_len := 0,
    fi_filename := 0, fi_child_list := [], fi_block_list := [] }

/-- Blank block as produced by the allocator. -/
def blankBlock : Block :=
  { fb_id := 0, fb_seq := 0, fb_area_idx := 0, fb_area_offset := 0,
    fb_deleted := false, fb_dummy := false, fb_data_len := 0, fb_data := 0,
    fb_inode := none }

/-- Blank area table slot. -/
def blankArea : Area :=
  { fa_offset := 0, fa_length := 0, fa_cur := 0, fa_gc_seq := 0, fa_id := 0 }

/-- Modelled from the spec: initialize an inode's fields from a disk record
(`ffs_inode_from_disk`).  Only disk-derived fields change; the RAM-only
parent back-link, reference count and child/block lists are untouched. -/
def ffs_inode_from_disk (i : Inode) (d : DiskInode)
    (area_idx area_offset : Nat) : Inode :=
  { i with
    fi_id := d.fdi_id, fi_seq := d.fdi_seq, fi_area_idx := area_idx,
    fi_area_offset := area_offset, fi_deleted := d.fdi_deleted,
    fi_dummy := d.fdi_dummy, fi_directory := d.fdi_directory,
    fi_filename_len := d.fdi_filename_len, fi_filename := d.fdi_filename }

/-- Modelled from the spec: initialize a block's fields from a disk record
(`ffs_block_from_disk`).  The RAM-only owning-inode pointer is untouched. -/
def ffs_block_from_disk (b : Block) (d : DiskBlock)
    (area_idx area_offset : Nat) : Block :=
  { b with
    fb_id := d.fdb_id, fb_seq := d.fdb_seq, fb_area_idx := area_idx,
    fb_area_offset := area_offset, fb_deleted := d.fdb_deleted,
    fb_dummy := d.fdb_dummy, fb_data_len := d.fdb_data_len,
    fb_data := d.fdb_data }

/-- Modelled from the spec: detach an inode from its parent
(`ffs_inode_remove_child`): the child leaves the parent's child list and its
parent back-link is cleared. -/
def ffs_inode_remove_child (s : FfsState) (childId : Nat) : FfsState :=
  let s1 :=
    match ffs_hash_find_inode s childId with
    | .ok c =>
        match c.fi_parent with
        | some p =>
            modifyInode s p (fun par =>
              { par with fi_child_list :=
                  par.fi_child_list.filter (fun x => x ≠ childId) })
        | none => s
    | .error _ => s
  modifyInode s1 childId (fun c => { c with fi_parent := none })

/-- Modelled from the spec: link an inode under a parent directory
(`ffs_inode_add_child`). -/
def ffs_inode_add_child (s : FfsState) (parentId childId : Nat) : FfsState :=
  let s1 := modifyInode s parentId (fun par =>
    { par with fi_child_list := par.fi_child_list ++ [childId] })
  modifyInode s1 childId (fun c => { c with fi_parent := some parentId })

/-- Modelled from the spec: link a block into its owning inode
(`ffs_inode_insert_block` plus the write of `block->fb_inode` by the caller's
lookup). -/
def ffs_inode_insert_block (s : FfsState) (inodeId blockId : Nat) : FfsState :=
  let s1 := modifyBlock s blockId (fun b => { b with fb_inode := some inodeId })
  modifyInode s1 inodeId (fun i =>
    { i with fi_block_list := i.fi_block_list ++ [blockId] })

/-- Modelled from the spec: whether a disk inode record designates the root
directory (`ffs_inode_is_root`): no parent and the directory flag set. -/
def ffs_inode_is_root (d : DiskInode) : Bool :=
  d.fdi_parent_id = FFS_ID_NONE && d.fdi_directory

/-- Update of `ffs_next_id` performed after every merge: the source tests
`fo_id >= ffs_next_id` and then stores `fo_id + 1` (the merged object's id
always equals the record's id). -/
def updNextId (id : Nat) (s : FfsState) : FfsState :=
  if s.ffs_next_id ≤ id then { s with ffs_next_id := id + 1 } else s

/-- Modelled from the spec: reset of all process-wide restore state
(`ffs_misc_reset`), including the allocator pools. -/
def ffs_misc_reset : FfsState :=
  { ffs_hash := [], ffs_areas := [], ffs_scratch_area_idx := FFS_AREA_ID_NONE,
    ffs_root_dir := none, ffs_next_id := 0,
    inode_pool := FFS_CONFIG_NUM_INODES, block_pool := FFS_CONFIG_NUM_BLOCKS,
    max_block_data_size := 0, trace := [] }

/-- Remove the inode with the given id from its parent's child list. -/
def ffs_inode_unlink_parent (s : FfsState) (iid : Nat) : FfsState :=
  match ffs_hash_find s iid with
  | some (.inode i) =>
      match i.fi_parent with
      | some p =>
          modifyInode s p (fun par =>
            { par with fi_child_list :=
                par.fi_child_list.filter (fun x => x ≠ iid) })
      | none => s
  | _ => s

/-- Child list of the inode with the given id (empty when absent). -/
def ffs_inode_child_ids (s : FfsState) (iid : Nat) : List Nat :=
  match ffs_hash_find s iid with
  | some (.inode i) => i.fi_child_list
  | _ => []

/-- Clear the parent back-links of the children of the given inode. -/
def ffs_inode_detach_children (s : FfsState) (iid : Nat) : FfsState :=
  (ffs_inode_child_ids s iid).foldl
    (fun st c => modifyInode st c (fun ch => { ch with fi_parent := none })) s

/-- Modelled from the spec (§4.H) and the comment in `ffs_delete_if_trash`
("delete the inode and everything that references it", boundary scenario 6):
deleting an inode removes it from the index, detaches it from its parent's
child list, clears its children's parent back-links, and removes every block
whose owning-inode pointer references it, returning everything to the
pools. -/
def ffs_inode_delete_from_ram (s : FfsState) (iid : Nat) : FfsState :=
  let s2 := ffs_inode_detach_children (ffs_inode_unlink_parent s iid) iid
  { s2 with
    ffs_hash := s2.ffs_hash.filter
      (fun o => !(isInodeWithId o iid) && !(isBlockOwnedBy o iid)),
    inode_pool := s2.inode_pool + 1,
    block_pool := s2.block_pool +
      (s2.ffs_hash.filter (fun o => isBlockOwnedBy o iid)).length }

/-- Owning-inode pointer of the block with the given id. -/
def ffs_block_owner (s : FfsState) (bid : Nat) : Option Nat :=
  match ffs_hash_find s bid with
  | some (.block b) => b.fb_inode
  | _ => none

/-- Remove the block with the given id from its owner's block list. -/
def ffs_block_unlink_owner (s : FfsState) (bid : Nat) : FfsState :=
  match ffs_block_owner s bid with
  | some j =>
      modifyInode s j (fun i =>
        { i with fi_block_list := i.fi_block_list.filter (fun x => x ≠ bid) })
  | none => s

/-- Modelled from the spec (§4.H): deleting a block removes it from the
index, unlinks it from its owner's block list, and returns it to the
pool. -/
def ffs_block_delete_from_ram (s : FfsState) (bid : Nat) : FfsState :=
  let s1 := ffs_block_unlink_owner s bid
  { s1 with
    ffs_hash := s1.ffs_hash.filter (fun o => !(isBlockWithId o bid)),
    block_pool := s1.block_pool + 1 }

/-- Translation of `ffs_delete_if_trash` (ffs_restore.c lines 9-45): an
inode is deleted when its `DELETED` or `DUMMY` flag is set; a block is
deleted when its `DELETED` flag is set or its owning-inode pointer is
null. -/
def ffs_delete_if_trash (s : FfsState) (o : FfsObject) : FfsState :=
  match o with
  | .inode i =>
      if i.fi_deleted || i.fi_dummy then ffs_inode_delete_from_ram s i.fi_id
      else s
  | .block b =>
      if b.fb_deleted || b.fb_inode.isNone then ffs_block_delete_from_ram s b.fb_id
      else s

/-- One iteration of the sweep: re-fetch the object for the snapshotted id
(it may have been removed by a cascading delete) and apply
`ffs_delete_if_trash` to it. -/
def sweepStep (s : FfsState) (oid : Nat) : FfsState :=
  match ffs_hash_find s oid with
  | none => s
  | some o => ffs_delete_if_trash s o

/-- Translation of `ffs_restore_sweep` (ffs_restore.c lines 47-66): one pass
over the whole index applying `ffs_delete_if_trash` to every object, safe
against removal of the element under scrutiny (the iteration works on a
snapshot of the ids).  Appends the ghost `pSweep` phase marker. -/
def ffs_restore_sweep (s : FfsState) : FfsState :=
  let s' := { s with trace := s.trace ++ [Phase.pSweep] }
  (s'.ffs_hash.map FfsObject.fo_id).foldl sweepStep s'

/-- Translation of `ffs_restore_dummy_inode` (ffs_restore.c lines 68-90):
allocate an inode, mark it `DUMMY` (plus `DIRECTORY` when requested), give
it the referenced id, no area, `refcnt = 1`, and insert it.  Fails with
`enomem` when the pool is exhausted.  Note that it does not update
`ffs_next_id`. -/
def ffs_restore_dummy_inode (id : Nat) (is_dir : Bool) (s : FfsState) :
    FfsRc × FfsState :=
  if s.inode_pool = 0 then (.enomem, s)
  else
    let inode : Inode :=
      { blankInode with
        fi_id := id, fi_refcnt := 1, fi_area_idx := FFS_AREA_ID_NONE,
        fi_dummy := true, fi_directory := is_dir }
    (.ok, ffs_hash_insert (.inode inode) { s with inode_pool := s.inode_pool - 1 })

/-- Translation of `ffs_restore_inode_gets_replaced` (ffs_restore.c lines
92-118): a dummy is always replaced; otherwise strictly higher sequence
replaces, equal sequence is `corrupt`, lower sequence is ignored. -/
def ffs_restore_inode_gets_replaced (old : Inode) (d : DiskInode) :
    Except FfsRc Bool :=
  if old.fi_dummy then .ok true
  else if old.fi_seq < d.fdi_seq then .ok true
  else if old.fi_seq = d.fdi_seq then .error .ecorrupt
  else .ok false

/-- Translation of `ffs_restore_block_gets_replaced` (ffs_restore.c lines
233-259). -/
def ffs_restore_block_gets_replaced (old : Block) (d : DiskBlock) :
    Except FfsRc Bool :=
  if old.fb_dummy then .ok true
  else if old.fb_seq < d.fdb_seq then .ok true
  else if old.fb_seq = d.fdb_seq then .error .ecorrupt
  else .ok false

/-- Error exit of `ffs_restore_inode`: a freshly allocated inode is returned
to the pool (`ffs_inode_free`); as in the C source, it is NOT removed from
the index it was already inserted into. -/
def ffs_inode_err_free (isNew : Bool) (s : FfsState) : FfsState :=
  if isNew then { s with inode_pool := s.inode_pool + 1 } else s

/-- Tail of `ffs_restore_inode` (ffs_restore.c lines 181-214): on `do_add`,
resolve or synthesize the parent, link the child, record the root; then
unconditionally update `ffs_next_id`.  The error exits happen before the
`ffs_next_id` update, and free the inode only when it was newly
allocated. -/
def ffs_restore_inode_commit (d : DiskInode) (doAdd isNew : Bool)
    (s : FfsState) : FfsRc × FfsState :=
  if doAdd then
    if d.fdi_parent_id ≠ FFS_ID_NONE then
      match ffs_hash_find_inode s d.fdi_parent_id with
      | .ok _ =>
          let s1 := ffs_inode_add_child s d.fdi_parent_id d.fdi_id
          let s2 := if ffs_inode_is_root d then
              { s1 with ffs_root_dir := some d.fdi_id } else s1
          (.ok, updNextId d.fdi_id s2)
      | .error .enoent =>
          match ffs_restore_dummy_inode d.fdi_parent_id true s with
          | (.ok, s1) =>
              let s2 := ffs_inode_add_child s1 d.fdi_parent_id d.fdi_id
              let s3 := if ffs_inode_is_root d then
                  { s2 with ffs_root_dir := some d.fdi_id } else s2
              (.ok, updNextId d.fdi_id s3)
          | (e, s1) => (e, ffs_inode_err_free isNew s1)
      | .error e => (e, ffs_inode_err_free isNew s)
    else
      let s1 := if ffs_inode_is_root d then
          { s with ffs_root_dir := some d.fdi_id } else s
      (.ok, updNextId d.fdi_id s1)
  else
    (.ok, updNextId d.fdi_id s)

/-- Translation of `ffs_restore_inode` (ffs_restore.c lines 130-215).  On a
hit, the replacement decision runs and an accepted record overwrites the
existing inode in place (detaching it from its old parent first); on a miss
a new inode is allocated, filled and inserted; any other lookup result is
`corrupt`. -/
def ffs_restore_inode (d : DiskInode) (area_idx area_offset : Nat)
    (s : FfsState) : FfsRc × FfsState :=
  match ffs_hash_find_inode s d.fdi_id with
  | .ok old =>
      match ffs_restore_inode_gets_replaced old d with
      | .error e => (e, s)
      | .ok doAdd =>
          let s1 :=
            if doAdd then
              let sA := if old.fi_parent.isSome then
                  ffs_inode_remove_child s d.fdi_id else s
              modifyInode sA d.fdi_id
                (fun i => ffs_inode_from_disk i d area_idx area_offset)
            else s
          ffs_restore_inode_commit d doAdd false s1
  | .error .enoent =>
      if s.inode_pool = 0 then (.enomem, s)
      else
        let inode :=
          { ffs_inode_from_disk blankInode d area_idx area_offset with
            fi_refcnt := 1 }
        let s1 := ffs_hash_insert (.inode inode)
          { s with inode_pool := s.inode_pool - 1 }
        ffs_restore_inode_commit d true true s1
  | .error _ => (.ecorrupt, s)

/-- Tail of `ffs_restore_block` for a newly allocated and inserted block
(ffs_restore.c lines 306-315): resolve or synthesize the owning inode and
link the block into it; the error exits free the new block (returning it to
the pool) without removing it from the index, as in the C source, and happen
before the `ffs_next_id` update. -/
def ffs_restore_block_attach (d : DiskBlock) (s1 : FfsState) :
    FfsRc × FfsState :=
  match ffs_hash_find_inode s1 d.fdb_inode_id with
  | .ok _ =>
      (.ok, updNextId d.fdb_id
        (ffs_inode_insert_block s1 d.fdb_inode_id d.fdb_id))
  | .error .enoent =>
      match ffs_restore_dummy_inode d.fdb_inode_id false s1 with
      | (.ok, s2) =>
          (.ok, updNextId d.fdb_id
            (ffs_inode_insert_block s2 d.fdb_inode_id d.fdb_id))
      | (e, s2) => (e, { s2 with block_pool := s2.block_pool + 1 })
  | .error e => (e, { s1 with block_pool := s1.block_pool + 1 })

/-- Translation of `ffs_restore_block` (ffs_restore.c lines 271-333).  On a
hit, the replacement decision runs and an accepted record overwrites the
existing block in place (the owning-inode pointer and list position are
untouched); on a miss a new block is allocated, inserted, and linked to its
found-or-synthesized owning inode; any other lookup result is `corrupt`. -/
def ffs_restore_block (d : DiskBlock) (area_idx area_offset : Nat)
    (s : FfsState) : FfsRc × FfsState :=
  match ffs_hash_find_block s d.fdb_id with
  | .ok old =>
      match ffs_restore_block_gets_replaced old d with
      | .error e => (e, s)
      | .ok doReplace =>
          let s1 :=
            if doReplace then
              modifyBlock s d.fdb_id
                (fun b => ffs_block_from_disk b d area_idx area_offset)
            else s
          (.ok, updNextId d.fdb_id s1)
  | .error .enoent =>
      if s.block_pool = 0 then (.enomem, s)
      else
        ffs_restore_block_attach d
          (ffs_hash_insert
            (.block (ffs_block_from_disk blankBlock d area_idx area_offset))
            { s with block_pool := s.block_pool - 1 })
  | .error _ => (.ecorrupt, s)

/-- Translation of `ffs_restore_object` (ffs_restore.c lines 343-368):
dispatch on the type tag; any tag other than the two valid ones is the
asserted-unreachable default returning `FFS_EINVAL`. -/
def ffs_restore_object (d : DiskObject) (s : FfsState) : FfsRc × FfsState :=
  if d.fdo_type = FFS_OBJECT_TYPE_INODE then
    ffs_restore_inode d.fdo_disk_inode d.fdo_area_idx d.fdo_offset s
  else if d.fdo_type = FFS_OBJECT_TYPE_BLOCK then
    ffs_restore_block d.fdo_disk_block d.fdo_area_idx d.fdo_offset s
  else
    (.einval, s)

/-- Translation of `ffs_restore_disk_object` (ffs_restore.c lines 380-422)
together with the spec's flash read semantics (§4.A): a read that would
cross the area's declared length yields `range`; otherwise the magic word
dispatches to the inode parse, the block parse, erased flash (`empty`) or
`corrupt`.  A successful parse requires the whole record (header plus
declared payload) to lie inside the area, and the record is stamped with its
location. -/
def ffs_restore_disk_object (flash : Flash) (area : Area)
    (area_idx area_offset : Nat) : Except FfsRc DiskObject :=
  if area.fa_length < area_offset + 4 then .error .erange
  else
    match flash.cellAt area.fa_offset area_offset with
    | .ioFail => .error .eflash
    | .erased => .error .eempty
    | .garbage => .error .ecorrupt
    | .inodeRec d =>
        if area.fa_length < area_offset + (DISK_INODE_SIZE + d.fdi_filename_len)
        then .error .erange
        else .ok { fdo_type := FFS_OBJECT_TYPE_INODE, fdo_disk_inode := d,
                   fdo_disk_block := blankDiskBlock, fdo_area_idx := area_idx,
                   fdo_offset := area_offset }
    | .blockRec d =>
        if area.fa_length < area_offset + (DISK_BLOCK_SIZE + d.fdb_data_len)
        then .error .erange
        else .ok { fdo_type := FFS_OBJECT_TYPE_BLOCK,
                   fdo_disk_inode := blankDiskInode, fdo_disk_block := d,
                   fdo_area_idx := area_idx, fdo_offset := area_offset }

/-- Translation of `ffs_restore_disk_object_size` (ffs_restore.c lines
429-445): fixed header size plus the variable payload length; the
asserted-unreachable default returns 1. -/
def ffs_restore_disk_object_size (d : DiskObject) : Nat :=
  if d.fdo_type = FFS_OBJECT_TYPE_INODE then
    DISK_INODE_SIZE + d.fdo_disk_inode.fdi_filename_len
  else if d.fdo_type = FFS_OBJECT_TYPE_BLOCK then
    DISK_BLOCK_SIZE + d.fdo_disk_block.fdb_data_len
  else 1

/-- Fuel-indexed translation of the scan loop of `ffs_restore_area_contents`
(ffs_restore.c lines 466-481).  `none` means the fuel ran out; the
sufficiency theorem below shows that fuel `fa_length + 1` never does.  As in
the C source, the return value of `ffs_restore_object` is discarded (line
470) and the cursor advances by the record's on-disk size. -/
def scanLoopF (flash : Flash) : Nat → Nat → Nat → FfsState →
    Option (FfsRc × FfsState)
  | 0, _, _, _ => none
  | fuel + 1, area_idx, cur, s =>
      match s.ffs_areas.get? area_idx with
      | none => some (.ecorrupt, s)
      | some area =>
          match ffs_restore_disk_object flash area area_idx cur with
          | .ok d =>
              let s' := (ffs_restore_object d s).2
              scanLoopF flash fuel area_idx
                (cur + ffs_restore_disk_object_size d) s'
          | .error .eempty => some (.ok, s)
          | .error .erange => some (.ok, s)
          | .error e => some (e, s)

/-- Translation of `ffs_restore_area_contents` (ffs_restore.c lines
455-482): scan one area starting right after the area header.  The fuel
`fa_length + 1` is sufficient (each accepted record advances the cursor by
at least the fixed header size), so the fuel-exhaustion default is never
taken. -/
def ffs_restore_area_contents (flash : Flash) (area_idx : Nat)
    (s : FfsState) : FfsRc × FfsState :=
  match s.ffs_areas.get? area_idx with
  | none => (.ecorrupt, s)
  | some area =>
      (scanLoopF flash (area.fa_length + 1) area_idx DISK_AREA_SIZE s).getD
        (.ecorrupt, s)

/-- Translation of `ffs_restore_detect_one_area` (ffs_restore.c lines
496-512): read the fixed area header; a flash failure is `FFS_EFLASH_ERROR`,
an absent magic is `corrupt`. -/
def ffs_restore_detect_one_area (flash : Flash) (area_offset : Nat) :
    Except FfsRc DiskArea :=
  match flash.headerAt area_offset with
  | .ioError => .error .eflash
  | .badMagic => .error .ecorrupt
  | .ok da => .ok da

/-- Find, at increasing indices, a later area with the same id as `a`. -/
def findSameId (a : Area) : List Area → Nat → Option Nat
  | [], _ => none
  | b :: rest, j => if b.fa_id = a.fa_id then some j else findSameId a rest (j + 1)

/-- Find the first pair of area indices sharing one area id. -/
def findDupPair : List Area → Nat → Option (Nat × Nat)
  | [], _ => none
  | a :: rest, i =>
      match findSameId a rest (i + 1) with
      | some j => some (i, j)
      | none => findDupPair rest (i + 1)

/-- Modelled from the spec (§4.G step 1): the area subsystem identifies the
`(good, bad)` pair of areas left by an interrupted garbage collection — two
areas claiming the same id.  If no such pair exists the filesystem is
unrecoverable (`corrupt`).  Which of the pair is good is the subsystem's
choice; the model deterministically picks the earlier index as good. -/
def ffs_area_find_corrupt_scratch (s : FfsState) : Except FfsRc (Nat × Nat) :=
  match findDupPair s.ffs_areas 0 with
  | some p => .ok p
  | none => .error .ecorrupt

/-- Set the `DUMMY` flag of one object when it originates from the bad
area. -/
def ffs_mark_dummy_obj (bad : Nat) (o : FfsObject) : FfsObject :=
  match o with
  | .inode i => if i.fi_area_idx = bad then .inode { i with fi_dummy := true }
                else .inode i
  | .block b => if b.fb_area_idx = bad then .block { b with fb_dummy := true }
                else .block b

/-- Marking pass of `ffs_restore_corrupt_flash` (ffs_restore.c lines
528-544): every object whose recorded area index is the bad area gets its
`DUMMY` flag set. -/
def ffs_restore_mark_bad_area (s : FfsState) (bad : Nat) : FfsState :=
  { s with ffs_hash := s.ffs_hash.map (ffs_mark_dummy_obj bad) }

/-- Overwrite one slot of the area table. -/
def setArea (s : FfsState) (idx : Nat) (a : Area) : FfsState :=
  { s with ffs_areas := s.ffs_areas.set idx a }

/-- Modelled from the spec: reformat an area as a blank scratch area
(`ffs_format_area`).  The flash decides whether the write succeeds; on
success the slot becomes an id-less area with an empty content cursor. -/
def ffs_format_area (flash : Flash) (idx : Nat) (s : FfsState) :
    FfsRc × FfsState :=
  match s.ffs_areas.get? idx with
  | none => (.ecorrupt, s)
  | some a =>
      if flash.canFormat a.fa_offset then
        (.ok, setArea s idx
          { a with
            fa_id := FFS_AREA_ID_NONE, fa_cur := DISK_AREA_SIZE,
            fa_gc_seq := a.fa_gc_seq + 1 })
      else (.eflash, s)

/-- Translation of `ffs_restore_corrupt_flash` (ffs_restore.c lines
514-559): find the good/bad pair, mark everything from the bad area dummy,
rescan the good area (here the scan's return IS checked, line 546),
reformat the bad area and record it as the scratch slot. -/
def ffs_restore_corrupt_flash (flash : Flash) (s : FfsState) :
    FfsRc × FfsState :=
  match ffs_area_find_corrupt_scratch s with
  | .error e => (e, s)
  | .ok (good, bad) =>
      let s1 := ffs_restore_mark_bad_area s bad
      match ffs_restore_area_contents flash good s1 with
      | (.ok, s2) =>
          match ffs_format_area flash bad s2 with
          | (.ok, s3) => (.ok, { s3 with ffs_scratch_area_idx := bad })
          | (e, s3) => (e, s3)
      | (e, s2) => (e, s2)

/-- Modelled from the spec: grow the area table to `n` slots
(`ffs_misc_set_num_areas`); the reallocation fails with `enomem` past the
configured capacity. -/
def ffs_misc_set_num_areas (n : Nat) (s : FfsState) : FfsRc × FfsState :=
  if FFS_CONFIG_MAX_AREAS < n then (.enomem, s)
  else (.ok, { s with ffs_areas :=
      s.ffs_areas ++ List.replicate (n - s.ffs_areas.length) blankArea })

/-- Modelled from the spec (§4.I step 4): the scratch area must be present
and at least as large as every non-scratch area (able to receive its
payload during garbage collection).  Appends the ghost `pVScratch` phase
marker. -/
def ffs_misc_validate_scratch (s : FfsState) : FfsRc × FfsState :=
  let s' := { s with trace := s.trace ++ [Phase.pVScratch] }
  if s'.ffs_scratch_area_idx = FFS_AREA_ID_NONE then (.ecorrupt, s')
  else
    match s'.ffs_areas.get? s'.ffs_scratch_area_idx with
    | none => (.ecorrupt, s')
    | some sc =>
        if s'.ffs_areas.any (fun a =>
            if a.fa_id = FFS_AREA_ID_NONE then false
            else decide (sc.fa_length < a.fa_length))
        then (.ecorrupt, s')
        else (.ok, s')

/-- Modelled from the spec (§4.I step 4): a root directory must have been
found.  Appends the ghost `pVRoot` phase marker. -/
def ffs_misc_validate_root (s : FfsState) : FfsRc × FfsState :=
  let s' := { s with trace := s.trace ++ [Phase.pVRoot] }
  if s'.ffs_root_dir.isNone then (.ecorrupt, s') else (.ok, s')

/-- Modelled from the spec (§4.I step 5): derive the system-wide maximum
data-block payload from the size of the smallest area.  Appends the ghost
`pSetMax` phase marker. -/
def ffs_misc_set_max_block_data_size (s : FfsState) : FfsState :=
  let lens := s.ffs_areas.map Area.fa_length
  let minLen := lens.foldr min (lens.headD 0)
  { s with
    max_block_data_size := minLen - (DISK_AREA_SIZE + DISK_BLOCK_SIZE),
    trace := s.trace ++ [Phase.pSetMax] }

/-- Body of the enumeration loop of `ffs_restore_full` (ffs_restore.c lines
588-631) for one (nonzero-length) area descriptor: parse the header (a
corrupt header skips the area, any other failure aborts), refuse a second
scratch area, allocate and populate an area slot, and either record the
scratch index or scan the area's contents — discarding the scan's return
value, as the C source does at line 629. -/
def ffs_restore_one_area (flash : Flash) (d : AreaDesc) (s : FfsState) :
    FfsRc × FfsState :=
  match ffs_restore_detect_one_area flash d.fad_offset with
  | .error .ecorrupt => (.ok, s)
  | .error e => (e, s)
  | .ok da =>
      if da.fda_id = FFS_AREA_ID_NONE ∧
          s.ffs_scratch_area_idx ≠ FFS_AREA_ID_NONE then
        (.ok, s)
      else
        match ffs_misc_set_num_areas (s.ffs_areas.length + 1) s with
        | (.ok, s1) =>
            let idx := s1.ffs_areas.length - 1
            let s2 := setArea s1 idx
              { fa_offset := d.fad_offset, fa_length := d.fad_length,
                fa_cur := DISK_AREA_SIZE, fa_gc_seq := da.fda_gc_seq,
                fa_id := da.fda_id }
            if da.fda_id = FFS_AREA_ID_NONE then
              (.ok, { s2 with ffs_scratch_area_idx := idx })
            else
              (.ok, (ffs_restore_area_contents flash idx s2).2)
        | (e, s1) => (e, s1)

/-- Area enumeration loop of `ffs_restore_full`: process descriptors until
the zero-length terminator, aborting on a propagated error. -/
def ffs_restore_areas (flash : Flash) : List AreaDesc → FfsState →
    FfsRc × FfsState
  | [], s => (.ok, s)
  | d :: rest, s =>
      if d.fad_length = 0 then (.ok, s)
      else
        match ffs_restore_one_area flash d s with
        | (.ok, s1) => ffs_restore_areas flash rest s1
        | (e, s1) => (e, s1)

/-- Scratch-recovery step of `ffs_restore_full` (ffs_restore.c lines
636-644): when no scratch area was identified, run the corrupt-scratch
repair. -/
def ffs_restore_scratch_phase (flash : Flash) (s : FfsState) :
    FfsRc × FfsState :=
  if s.ffs_scratch_area_idx = FFS_AREA_ID_NONE then
    ffs_restore_corrupt_flash flash s
  else (.ok, s)

/-- Translation of `ffs_restore_full` (ffs_restore.c lines 574-673): reset,
enumerate and restore the areas, repair the scratch if none was found,
validate the scratch area, sweep, validate the root directory, and set the
maximum block payload.  Every error path resets all state before returning
(the `err` label).  The order of the final phases is the source's order:
scratch validation, then the sweep, then root validation, then the size
computation. -/
def ffs_restore_full (flash : Flash) (descs : List AreaDesc) :
    FfsRc × FfsState :=
  match ffs_restore_areas flash descs ffs_misc_reset with
  | (.ok, s1) =>
      match ffs_restore_scratch_phase flash s1 with
      | (.ok, s2) =>
          match ffs_misc_validate_scratch s2 with
          | (.ok, s3) =>
              let s4 := ffs_restore_sweep s3
              match ffs_misc_validate_root s4 with
              | (.ok, s5) => (.ok, ffs_misc_set_max_block_data_size s5)
              | (e, _) => (e, ffs_misc_reset)
          | (e, _) => (e, ffs_misc_reset)
      | (e, _) => (e, ffs_misc_reset)
  | (e, _) => (e, ffs_misc_reset)

/-- Decidable equality for `Except` results, used to evaluate concrete
runs. -/
instance {ε α : Type} [DecidableEq ε] [DecidableEq α] :
    DecidableEq (Except ε α) := fun a b =>
  match a, b with
  | .ok x, .ok y =>
      if h : x = y then .isTrue (by rw [h]) else .isFalse (by simp [h])
  | .error x, .error y =>
      if h : x = y then .isTrue (by rw [h]) else .isFalse (by simp [h])
  | .ok _, .error _ => .isFalse (by simp)
  | .error _, .ok _ => .isFalse (by simp)

/-! Concrete flash images used by the claim-level results. -/

/-- A root-directory inode record with id 5, sequence 1. -/
def rootRec : DiskInode :=
  { fdi_id := 5, fdi_seq := 1, fdi_parent_id := FFS_ID_NONE,
    fdi_deleted := false, fdi_dummy := false, fdi_directory := true,
    fdi_filename_len := 0, fdi_filename := 0 }

/-- Flash image holding one data area whose contents are two inode records
with identical `(id = 5, seq = 1)`, plus one scratch area. -/
def exFlashC1 : Flash :=
  { headerAt := fun off =>
      if off = 0 then .ok { fda_id := 0, fda_gc_seq := 0 }
      else if off = 500 then .ok { fda_id := FFS_AREA_ID_NONE, fda_gc_seq := 0 }
      else .badMagic,
    cellAt := fun aoff rel =>
      if aoff = 0 && (rel = 8 || rel = 28) then .inodeRec rootRec
      else .erased,
    canFormat := fun _ => true }

/-- Area descriptors for `exFlashC1`. -/
def exDescsC1 : List AreaDesc :=
  [{ fad_offset := 0, fad_length := 60 }, { fad_offset := 500, fad_length := 60 }]

/-- The RAM inode restored from the first of the two duplicate records. -/
def exInode5 : Inode :=
  { fi_id := 5, fi_seq := 1, fi_area_idx := 0, fi_area_offset := 8,
    fi_deleted := false, fi_dummy := false, fi_directory := true,
    fi_parent := none, fi_refcnt := 1, fi_filename_len := 0, fi_filename := 0,
    fi_child_list := [], fi_block_list := [] }

/-- A root-directory inode record with id 1. -/
def recRoot1 : DiskInode :=
  { fdi_id := 1, fdi_seq := 0, fdi_parent_id := FFS_ID_NONE,
    fdi_deleted := false, fdi_dummy := false, fdi_directory := true,
    fdi_filename_len := 0, fdi_filename := 0 }

/-- A plain file inode record with id 10, parent 1. -/
def recFile10 : DiskInode :=
  { fdi_id := 10, fdi_seq := 0, fdi_parent_id := 1,
    fdi_deleted := false, fdi_dummy := false, fdi_directory := false,
    fdi_filename_len := 0, fdi_filename := 0 }

/-- A plain file inode record with id 11, parent 1. -/
def recFile11 : DiskInode :=
  { fdi_id := 11, fdi_seq := 0, fdi_parent_id := 1,
    fdi_deleted := false, fdi_dummy := false, fdi_directory := false,
    fdi_filename_len := 0, fdi_filename := 0 }

/-- A plain file inode record with id 100 whose parent id 7 appears nowhere
else on the flash, so merging it synthesizes a dummy parent. -/
def recFile100 : DiskInode :=
  { fdi_id := 100, fdi_seq := 0, fdi_parent_id := 7,
    fdi_deleted := false, fdi_dummy := false, fdi_directory := false,
    fdi_filename_len := 0, fdi_filename := 0 }

/-- Flash image whose data area holds four inode records; merging the fourth
(id 100, unseen parent 7) exhausts the inode pool while synthesizing the
dummy parent, after the new inode was already inserted but before the
`ffs_next_id` update. -/
def exFlashC6 : Flash :=
  { headerAt := fun off =>
      if off = 0 then .ok { fda_id := 0, fda_gc_seq := 0 }
      else if off = 500 then .ok { fda_id := FFS_AREA_ID_NONE, fda_gc_seq := 0 }
      else .badMagic,
    cellAt := fun aoff rel =>
      if aoff = 0 then
        if rel = 8 then .inodeRec recRoot1
        else if rel = 28 then .inodeRec recFile10
        else if rel = 48 then .inodeRec recFile11
        else if rel = 68 then .inodeRec recFile100
        else .erased
      else .erased,
    canFormat := fun _ => true }

/-- Area descriptors for `exFlashC6`. -/
def exDescsC6 : List AreaDesc :=
  [{ fad_offset := 0, fad_length := 100 },
   { fad_offset := 500, fad_length := 100 }]

/-- Flash image with a valid data area (offset 0, root record) and scratch
area (offset 500); reading the area header at offset 900 fails with an I/O
error. -/
def exFlashC7 : Flash :=
  { headerAt := fun off =>
      if off = 0 then .ok { fda_id := 0, fda_gc_seq := 0 }
      else if off = 500 then .ok { fda_id := FFS_AREA_ID_NONE, fda_gc_seq := 0 }
      else if off = 900 then .ioError
      else .badMagic,
    cellAt := fun aoff rel =>
      if aoff = 0 && rel = 8 then .inodeRec recRoot1 else .erased,
    canFormat := fun _ => true }

/-- Area descriptors for `exFlashC7`: the io-failing area first, then the
valid data and scratch areas. -/
def exDescsC7 : List AreaDesc :=
  [{ fad_offset := 900, fad_length := 60 },
   { fad_offset := 0, fad_length := 60 },
   { fad_offset := 500, fad_length := 60 }]

/-- Minimal valid flash image: one data area holding only a root-directory
record, one scratch area. -/
def exFlashC4 : Flash :=
  { headerAt := fun off =>
      if off = 0 then .ok { fda_id := 0, fda_gc_seq := 0 }
      else if off = 500 then .ok { fda_id := FFS_AREA_ID_NONE, fda_gc_seq := 0 }
      else .badMagic,
    cellAt := fun aoff rel =>
      if aoff = 0 && rel = 8 then .inodeRec recRoot1 else .erased,
    canFormat := fun _ => true }

/-- Area descriptors for `exFlashC4`. -/
def exDescsC4 : List AreaDesc :=
  [{ fad_offset := 0, fad_length := 60 }, { fad_offset := 500, fad_length := 60 }]

/-- C1: the claim states that a merge failure during an area scan stops the
scan with that error and that `ffs_restore_full` propagates it, returning
`corrupt` for a flash image holding two inode records with identical
`(id = 5, seq = 1)`.  The code does not: `ffs_restore_area_contents`
discards the return value of `ffs_restore_object` (ffs_restore.c line 470)
and `ffs_restore_full` discards the return value of
`ffs_restore_area_contents` (line 629).  On exactly the claimed image the
merge of the duplicate record yields `corrupt` (second and third conjuncts),
yet `ffs_restore_full` returns success (first conjunct). -/
theorem claim_C1_code_bug :
    (ffs_restore_full exFlashC1 exDescsC1).1 = FfsRc.ok ∧
    ffs_hash_find_inode (ffs_restore_full exFlashC1 exDescsC1).2 5 =
      Except.ok exInode5 ∧
    ffs_restore_inode_gets_replaced exInode5 rootRec =
      Except.error FfsRc.ecorrupt := by
  refine ⟨by decide, by decide, by decide⟩

/-- C6: the claim states that after any successful `ffs_restore_full`,
`ffs_next_id` exceeds the id of every object remaining in the index.  The
code violates this: merging the record with id 100 exhausts the inode pool
while synthesizing its dummy parent; the error exit of `ffs_restore_inode`
(line 211) runs after the new inode was inserted (line 173) but before the
`ffs_next_id` update (line 204), the scan discards the merge's return value
(line 470), and the restore then succeeds with an inode of id 100 in the
index while `ffs_next_id` is 12. -/
theorem claim_C6_code_bug :
    (ffs_restore_full exFlashC6 exDescsC6).1 = FfsRc.ok ∧
    (ffs_restore_full exFlashC6 exDescsC6).2.ffs_next_id = 12 ∧
    ffs_hash_find_inode (ffs_restore_full exFlashC6 exDescsC6).2 100 =
      Except.ok
        { fi_id := 100, fi_seq := 0, fi_area_idx := 0, fi_area_offset := 68,
          fi_deleted := false, fi_dummy := false, fi_directory := false,
          fi_parent := none, fi_refcnt := 1, fi_filename_len := 0,
          fi_filename := 0, fi_child_list := [], fi_block_list := [] } := by
  refine ⟨by decide, by decide, by decide⟩

/-- A non-trash inode (id 1) owning block 2. -/
def exInodeOwner : Inode :=
  { blankInode with fi_id := 1, fi_refcnt := 1, fi_block_list := [2] }

/-- A block (id 2) whose `DUMMY` flag is set but whose `DELETED` flag is
clear and whose owning-inode pointer is non-null. -/
def exDummyBlock : Block :=
  { fb_id := 2, fb_seq := 0, fb_area_idx := 0, fb_area_offset := 36,
    fb_deleted := false, fb_dummy := true, fb_data_len := 0, fb_data := 0,
    fb_inode := some 1 }

/-- A state holding `exDummyBlock` and its owner. -/
def exStateC2 : FfsState :=
  { ffs_misc_reset with
    ffs_hash := [.block exDummyBlock, .inode exInodeOwner] }

/-- C2 counterexample: the claim states that the sweep deletes every block
whose `DUMMY` flag is set.  It does not: `ffs_delete_if_trash` tests only
the `DELETED` flag and the owning-inode pointer for blocks (ffs_restore.c
line 34), so a dummy block with a live owner survives the sweep
unchanged. -/
theorem claim_C2_counterexample :
    exDummyBlock.fb_dummy = true ∧
    FfsObject.block exDummyBlock ∈ (ffs_restore_sweep exStateC2).ffs_hash ∧
    (ffs_restore_sweep exStateC2).ffs_hash = exStateC2.ffs_hash := by
  refine ⟨by decide, by decide, by decide⟩

/-- C4 counterexample: the claim states that after area restoration the
final phases run in the order scratch-and-root validation, then block-size
computation, then sweep.  On a minimal valid image the successful run's
phase trace is scratch validation, sweep, root validation, size
computation — the sweep runs before root validation and the size
computation, not after them. -/
theorem claim_C4_counterexample :
    (ffs_restore_full exFlashC4 exDescsC4).1 = FfsRc.ok ∧
    (ffs_restore_full exFlashC4 exDescsC4).2.trace =
      [Phase.pVScratch, Phase.pSweep, Phase.pVRoot, Phase.pSetMax] ∧
    [Phase.pVScratch, Phase.pSweep, Phase.pVRoot, Phase.pSetMax] ≠
      [Phase.pVScratch, Phase.pVRoot, Phase.pSetMax, Phase.pSweep] := by
  refine ⟨by decide, by decide, by decide⟩

/-- C7 counterexample: the claim states that ANY failure to parse an area
header causes the area to be skipped and the restore to continue.  An I/O
error is not skipped: with the io-failing descriptor present the restore
aborts with the flash error, while the same flash without that descriptor
mounts successfully. -/
theorem claim_C7_counterexample :
    (ffs_restore_full exFlashC7 exDescsC7).1 = FfsRc.eflash ∧
    (ffs_restore_full exFlashC7 (exDescsC7.drop 1)).1 = FfsRc.ok := by
  refine ⟨by decide, by decide⟩

/-- C5: whenever the index already holds a non-dummy object (inode or
block) with the record's id and an equal sequence number, the merge returns
`corrupt` and the state — in particular the existing object — is left
completely unchanged. -/
theorem claim_C5_dup_seq_corrupt :
    (∀ (s : FfsState) (d : DiskInode) (a o : Nat) (old : Inode),
        ffs_hash_find_inode s d.fdi_id = Except.ok old →
        old.fi_dummy = false → old.fi_seq = d.fdi_seq →
        ffs_restore_inode d a o s = (FfsRc.ecorrupt, s)) ∧
    (∀ (s : FfsState) (d : DiskBlock) (a o : Nat) (old : Block),
        ffs_hash_find_block s d.fdb_id = Except.ok old →
        old.fb_dummy = false → old.fb_seq = d.fdb_seq →
        ffs_restore_block d a o s = (FfsRc.ecorrupt, s)) := by
  constructor
  · intro s d a o old hfind hdummy hseq
    simp [ffs_restore_inode, hfind, ffs_restore_inode_gets_replaced, hdummy,
      hseq]
  · intro s d a o old hfind hdummy hseq
    simp [ffs_restore_block, hfind, ffs_restore_block_gets_replaced, hdummy,
      hseq]

/-- A non-dummy inode with id 3, sequence 7, present in `exStateC5`. -/
def exInodeC5 : Inode := { blankInode with fi_id := 3, fi_seq := 7, fi_refcnt := 1 }

/-- A non-dummy block with id 4, sequence 9, present in `exStateC5`. -/
def exBlockC5 : Block := { blankBlock with fb_id := 4, fb_seq := 9, fb_inode := some 3 }

/-- A state holding `exInodeC5` and `exBlockC5`. -/
def exStateC5 : FfsState :=
  { ffs_misc_reset with ffs_hash := [.inode exInodeC5, .block exBlockC5] }

/-- A disk inode record duplicating `(id = 3, seq = 7)`. -/
def exDiskInodeC5 : DiskInode :=
  { fdi_id := 3, fdi_seq := 7, fdi_parent_id := FFS_ID_NONE,
    fdi_deleted := false, fdi_dummy := false, fdi_directory := false,
    fdi_filename_len := 0, fdi_filename := 0 }

/-- A disk block record duplicating `(id = 4, seq = 9)`. -/
def exDiskBlockC5 : DiskBlock :=
  { fdb_id := 4, fdb_seq := 9, fdb_inode_id := 3, fdb_deleted := false,
    fdb_dummy := false, fdb_data_len := 0, fdb_data := 0 }

/-- Witness for C5 at concrete duplicate records. -/
theorem claim_C5_witness :
    (ffs_hash_find_inode exStateC5 exDiskInodeC5.fdi_id = Except.ok exInodeC5 ∧
     exInodeC5.fi_dummy = false ∧ exInodeC5.fi_seq = exDiskInodeC5.fdi_seq ∧
     ffs_restore_inode exDiskInodeC5 0 8 exStateC5 = (FfsRc.ecorrupt, exStateC5)) ∧
    (ffs_hash_find_block exStateC5 exDiskBlockC5.fdb_id = Except.ok exBlockC5 ∧
     exBlockC5.fb_dummy = false ∧ exBlockC5.fb_seq = exDiskBlockC5.fdb_seq ∧
     ffs_restore_block exDiskBlockC5 0 28 exStateC5 = (FfsRc.ecorrupt, exStateC5)) :=
  ⟨⟨by decide, by decide, by decide,
    claim_C5_dup_seq_corrupt.1 exStateC5 exDiskInodeC5 0 8 exInodeC5
      (by decide) (by decide) (by decide)⟩,
   ⟨by decide, by decide, by decide,
    claim_C5_dup_seq_corrupt.2 exStateC5 exDiskBlockC5 0 28 exBlockC5
      (by decide) (by decide) (by decide)⟩⟩

/-- C10: every disk object returned with success by
`ffs_restore_disk_object` carries the inode or block type tag; consequently
`ffs_restore_object` dispatches to the corresponding merge (its
asserted-unreachable `FFS_EINVAL` default is not taken) and
`ffs_restore_disk_object_size` computes header-plus-payload (its
asserted-unreachable default is not taken). -/
theorem claim_C10_reader_type_valid :
    ∀ (flash : Flash) (area : Area) (ai off : Nat) (d : DiskObject),
      ffs_restore_disk_object flash area ai off = Except.ok d →
      (d.fdo_type = FFS_OBJECT_TYPE_INODE ∨ d.fdo_type = FFS_OBJECT_TYPE_BLOCK) ∧
      (∀ s : FfsState,
        (d.fdo_type = FFS_OBJECT_TYPE_INODE ∧
          ffs_restore_object d s =
            ffs_restore_inode d.fdo_disk_inode d.fdo_area_idx d.fdo_offset s) ∨
        (d.fdo_type = FFS_OBJECT_TYPE_BLOCK ∧
          ffs_restore_object d s =
            ffs_restore_block d.fdo_disk_block d.fdo_area_idx d.fdo_offset s)) ∧
      ((d.fdo_type = FFS_OBJECT_TYPE_INODE ∧
          ffs_restore_disk_object_size d =
            DISK_INODE_SIZE + d.fdo_disk_inode.fdi_filename_len) ∨
       (d.fdo_type = FFS_OBJECT_TYPE_BLOCK ∧
          ffs_restore_disk_object_size d =
            DISK_BLOCK_SIZE + d.fdo_disk_block.fdb_data_len)) := by
  intro flash area ai off d h
  unfold ffs_restore_disk_object at h
  split at h
  · exact absurd h (by simp)
  · split at h
    all_goals first
      | exact absurd h (by simp)
      | (split at h
         · exact absurd h (by simp)
         · cases h
           refine ⟨by simp [FFS_OBJECT_TYPE_INODE, FFS_OBJECT_TYPE_BLOCK],
             fun s => ?_, ?_⟩
           · first
               | exact Or.inl ⟨rfl, by
                   simp [ffs_restore_object]⟩
               | exact Or.inr ⟨rfl, by
                   simp [ffs_restore_object, FFS_OBJECT_TYPE_INODE,
                     FFS_OBJECT_TYPE_BLOCK]⟩
           · first
               | exact Or.inl ⟨rfl, by
                   simp [ffs_restore_disk_object_size]⟩
               | exact Or.inr ⟨rfl, by
                   simp [ffs_restore_disk_object_size, FFS_OBJECT_TYPE_INODE,
                     FFS_OBJECT_TYPE_BLOCK]⟩)

/-- The area-table entry created for the data area of the example images. -/
def exArea0 : Area :=
  { fa_offset := 0, fa_length := 60, fa_cur := 8, fa_gc_seq := 0, fa_id := 0 }

/-- The disk object read at offset 8 of the example data area. -/
def exDiskObjC10 : DiskObject :=
  { fdo_type := FFS_OBJECT_TYPE_INODE, fdo_disk_inode := rootRec,
    fdo_disk_block := blankDiskBlock, fdo_area_idx := 0, fdo_offset := 8 }

/-- Witness for C10 at a concrete read. -/
theorem claim_C10_witness :
    ffs_restore_disk_object exFlashC1 exArea0 0 8 = Except.ok exDiskObjC10 ∧
    (exDiskObjC10.fdo_type = FFS_OBJECT_TYPE_INODE ∨
     exDiskObjC10.fdo_type = FFS_OBJECT_TYPE_BLOCK) ∧
    ((exDiskObjC10.fdo_type = FFS_OBJECT_TYPE_INODE ∧
      ffs_restore_object exDiskObjC10 ffs_misc_reset =
        ffs_restore_inode exDiskObjC10.fdo_disk_inode exDiskObjC10.fdo_area_idx
          exDiskObjC10.fdo_offset ffs_misc_reset) ∨
     (exDiskObjC10.fdo_type = FFS_OBJECT_TYPE_BLOCK ∧
      ffs_restore_object exDiskObjC10 ffs_misc_reset =
        ffs_restore_block exDiskObjC10.fdo_disk_block exDiskObjC10.fdo_area_idx
          exDiskObjC10.fdo_offset ffs_misc_reset)) ∧
    ((exDiskObjC10.fdo_type = FFS_OBJECT_TYPE_INODE ∧
      ffs_restore_disk_object_size exDiskObjC10 =
        DISK_INODE_SIZE + exDiskObjC10.fdo_disk_inode.fdi_filename_len) ∨
     (exDiskObjC10.fdo_type = FFS_OBJECT_TYPE_BLOCK ∧
      ffs_restore_disk_object_size exDiskObjC10 =
        DISK_BLOCK_SIZE + exDiskObjC10.fdo_disk_block.fdb_data_len)) :=
  ⟨by decide,
   (claim_C10_reader_type_valid exFlashC1 exArea0 0 8 exDiskObjC10 (by decide)).1,
   (claim_C10_reader_type_valid exFlashC1 exArea0 0 8 exDiskObjC10 (by decide)).2.1
     ffs_misc_reset,
   (claim_C10_reader_type_valid exFlashC1 exArea0 0 8 exDiskObjC10 (by decide)).2.2⟩

/-- The inode entries of an index list, in order, with all their fields. -/
def inodesOf (l : List FfsObject) : List Inode :=
  l.filterMap (fun o => match o with | .inode i => some i | .block _ => none)

/-- Rewriting a block entry leaves every inode entry untouched. -/
theorem inodesOf_modifyBlockList (l : List FfsObject) (id : Nat)
    (f : Block → Block) : inodesOf (modifyBlockList l id f) = inodesOf l := by
  induction l with
  | nil => rfl
  | cons o rest ih =>
      cases o with
      | inode i => simp [modifyBlockList, inodesOf] at ih ⊢; exact ih
      | block b =>
          by_cases hid : b.fb_id = id
          · simp [modifyBlockList, hid, inodesOf]
          · simp [modifyBlockList, hid, inodesOf] at ih ⊢; exact ih

/-- A successful `find?` on an id names an object with that id. -/
theorem ffs_hash_find_eq_id (s : FfsState) (id : Nat) (o : FfsObject)
    (h : ffs_hash_find s id = some o) : o.fo_id = id := by
  have := List.find?_some h
  simpa using this

/-- Elimination for a successful block lookup. -/
theorem find_block_ok_elim (s : FfsState) (id : Nat) (old : Block)
    (h : ffs_hash_find_block s id = Except.ok old) :
    ffs_hash_find s id = some (.block old) := by
  unfold ffs_hash_find_block at h
  cases hf : ffs_hash_find s id with
  | none => rw [hf] at h; exact absurd h (by simp)
  | some o =>
      cases o with
      | inode i => rw [hf] at h; exact absurd h (by simp)
      | block b => rw [hf] at h; simp at h; rw [h]

/-- After rewriting the first block entry with the looked-up id, the lookup
returns the rewritten block. -/
theorem find?_modifyBlockList_self (l : List FfsObject) (id : Nat)
    (f : Block → Block) (old : Block)
    (h : l.find? (fun o => decide (o.fo_id = id)) = some (.block old))
    (hf : (f old).fb_id = id) :
    (modifyBlockList l id f).find? (fun o => decide (o.fo_id = id)) =
      some (.block (f old)) := by
  induction l with
  | nil => simp at h
  | cons o rest ih =>
      cases o with
      | inode i =>
          by_cases hid : i.fi_id = id
          · rw [List.find?_cons_of_pos _ (by simp [FfsObject.fo_id, hid])] at h
            exact absurd h (by simp)
          · rw [List.find?_cons_of_neg _ (by simp [FfsObject.fo_id, hid])] at h
            rw [modifyBlockList,
              List.find?_cons_of_neg _ (by simp [FfsObject.fo_id, hid])]
            exact ih h
      | block b =>
          by_cases hid : b.fb_id = id
          · rw [List.find?_cons_of_pos _ (by simp [FfsObject.fo_id, hid])] at h
            simp at h
            rw [modifyBlockList, if_pos hid]
            rw [h]
            exact List.find?_cons_of_pos _ (by simp [FfsObject.fo_id, hf])
          · rw [List.find?_cons_of_neg _ (by simp [FfsObject.fo_id, hid])] at h
            rw [modifyBlockList, if_neg hid]
            rw [List.find?_cons_of_neg _ (by simp [FfsObject.fo_id, hid])]
            exact ih h

/-- The replacement decision accepts a dummy or strictly superseded
block. -/
theorem block_gets_replaced_true (old : Block) (d : DiskBlock)
    (h : old.fb_dummy = true ∨ old.fb_seq < d.fdb_seq) :
    ffs_restore_block_gets_replaced old d = Except.ok true := by
  cases hd : old.fb_dummy with
  | true => simp [ffs_restore_block_gets_replaced, hd]
  | false =>
      cases h with
      | inl hh => rw [hd] at hh; exact absurd hh (by simp)
      | inr hh => simp [ffs_restore_block_gets_replaced, hd, hh]

/-- C9: when a disk block record replaces an existing indexed block (dummy
or lower sequence), the record's `inode_id` field is not consulted: the
whole merge is the in-place field rewrite plus the `ffs_next_id` update, the
rewritten block keeps the old owning-inode pointer, every inode entry (and
hence every block list and the block's position in it) is unchanged, and the
lookup now yields the rewritten block. -/
theorem claim_C9_replace_ignores_inode_id :
    ∀ (s : FfsState) (d : DiskBlock) (a o : Nat) (old : Block),
      ffs_hash_find_block s d.fdb_id = Except.ok old →
      (old.fb_dummy = true ∨ old.fb_seq < d.fdb_seq) →
      ffs_restore_block d a o s =
        (FfsRc.ok, updNextId d.fdb_id
          (modifyBlock s d.fdb_id (fun b => ffs_block_from_disk b d a o))) ∧
      (ffs_block_from_disk old d a o).fb_inode = old.fb_inode ∧
      inodesOf (ffs_restore_block d a o s).2.ffs_hash = inodesOf s.ffs_hash ∧
      ffs_hash_find_block (ffs_restore_block d a o s).2 d.fdb_id =
        Except.ok (ffs_block_from_disk old d a o) := by
  intro s d a o old hfind hrep
  have hmain : ffs_restore_block d a o s =
      (FfsRc.ok, updNextId d.fdb_id
        (modifyBlock s d.fdb_id (fun b => ffs_block_from_disk b d a o))) := by
    simp [ffs_restore_block, hfind, block_gets_replaced_true old d hrep]
  refine ⟨hmain, by simp [ffs_block_from_disk], ?_, ?_⟩
  · rw [hmain]
    unfold updNextId
    split
    · simp [modifyBlock, inodesOf_modifyBlockList]
    · simp [modifyBlock, inodesOf_modifyBlockList]
  · rw [hmain]
    have hraw := find_block_ok_elim s d.fdb_id old hfind
    have hfound : (modifyBlockList s.ffs_hash d.fdb_id
        (fun b => ffs_block_from_disk b d a o)).find?
          (fun o => decide (o.fo_id = d.fdb_id)) =
        some (.block (ffs_block_from_disk old d a o)) := by
      apply find?_modifyBlockList_self s.ffs_hash d.fdb_id _ old
      · exact hraw
      · simp [ffs_block_from_disk]
    unfold updNextId
    split
    · simp only [ffs_hash_find_block, ffs_hash_find, modifyBlock]
      rw [hfound]
    · simp only [ffs_hash_find_block, ffs_hash_find, modifyBlock]
      rw [hfound]

/-- A non-dummy block with id 6, sequence 1, owned by inode 1. -/
def exOldBlockC9 : Block :=
  { fb_id := 6, fb_seq := 1, fb_area_idx := 0, fb_area_offset := 36,
    fb_deleted := false, fb_dummy := false, fb_data_len := 4, fb_data := 77,
    fb_inode := some 1 }

/-- The owner of `exOldBlockC9`, listing it. -/
def exOwnerC9 : Inode :=
  { blankInode with fi_id := 1, fi_refcnt := 1, fi_block_list := [6] }

/-- A state holding `exOldBlockC9` and its owner. -/
def exStateC9 : FfsState :=
  { ffs_misc_reset with ffs_hash := [.block exOldBlockC9, .inode exOwnerC9] }

/-- A superseding record for block 6 whose `inode_id` names a different,
nonexistent inode (42). -/
def exDiskBlockC9 : DiskBlock :=
  { fdb_id := 6, fdb_seq := 2, fdb_inode_id := 42, fdb_deleted := false,
    fdb_dummy := false, fdb_data_len := 4, fdb_data := 88 }

/-- Witness for C9 at a concrete superseding record whose `inode_id` names a
different inode than the current owner. -/
theorem claim_C9_witness :
    ffs_hash_find_block exStateC9 exDiskBlockC9.fdb_id = Except.ok exOldBlockC9 ∧
    (exOldBlockC9.fb_dummy = true ∨ exOldBlockC9.fb_seq < exDiskBlockC9.fdb_seq) ∧
    (ffs_restore_block exDiskBlockC9 0 36 exStateC9 =
        (FfsRc.ok, updNextId exDiskBlockC9.fdb_id
          (modifyBlock exStateC9 exDiskBlockC9.fdb_id
            (fun b => ffs_block_from_disk b exDiskBlockC9 0 36))) ∧
      (ffs_block_from_disk exOldBlockC9 exDiskBlockC9 0 36).fb_inode =
        exOldBlockC9.fb_inode ∧
      inodesOf (ffs_restore_block exDiskBlockC9 0 36 exStateC9).2.ffs_hash =
        inodesOf exStateC9.ffs_hash ∧
      ffs_hash_find_block (ffs_restore_block exDiskBlockC9 0 36 exStateC9).2
          exDiskBlockC9.fdb_id =
        Except.ok (ffs_block_from_disk exOldBlockC9 exDiskBlockC9 0 36)) :=
  ⟨by decide, Or.inr (by decide),
   claim_C9_replace_ignores_inode_id exStateC9 exDiskBlockC9 0 36 exOldBlockC9
     (by decide) (Or.inr (by decide))⟩

/-- C7 (amended): during area enumeration, a header whose magic is absent
(`corrupt` parse) causes exactly that area to be skipped — the loop
continues on the remaining descriptors with unchanged state — while a header
read that fails with an I/O error aborts the whole enumeration with
`FFS_EFLASH_ERROR`. -/
theorem claim_C7_amended :
    ∀ (flash : Flash) (d : AreaDesc) (rest : List AreaDesc) (s : FfsState),
      d.fad_length ≠ 0 →
      (flash.headerAt d.fad_offset = HeaderRead.badMagic →
        ffs_restore_areas flash (d :: rest) s = ffs_restore_areas flash rest s) ∧
      (flash.headerAt d.fad_offset = HeaderRead.ioError →
        ffs_restore_areas flash (d :: rest) s = (FfsRc.eflash, s)) := by
  intro flash d rest s hlen
  constructor
  · intro hbad
    simp [ffs_restore_areas, hlen, ffs_restore_one_area,
      ffs_restore_detect_one_area, hbad]
  · intro hio
    simp [ffs_restore_areas, hlen, ffs_restore_one_area,
      ffs_restore_detect_one_area, hio]

/-- Witness for the amended C7: at offset 700 the example flash has no valid
header magic and the descriptor is skipped; at offset 900 the header read
io-fails and the enumeration aborts. -/
theorem claim_C7_amended_witness :
    ((AreaDesc.mk 700 60).fad_length ≠ 0 ∧
     exFlashC7.headerAt (AreaDesc.mk 700 60).fad_offset = HeaderRead.badMagic ∧
     ffs_restore_areas exFlashC7 [AreaDesc.mk 700 60] ffs_misc_reset =
       ffs_restore_areas exFlashC7 [] ffs_misc_reset) ∧
    ((AreaDesc.mk 900 60).fad_length ≠ 0 ∧
     exFlashC7.headerAt (AreaDesc.mk 900 60).fad_offset = HeaderRead.ioError ∧
     ffs_restore_areas exFlashC7 [AreaDesc.mk 900 60] ffs_misc_reset =
       (FfsRc.eflash, ffs_misc_reset)) :=
  ⟨⟨by decide, by decide,
    (claim_C7_amended exFlashC7 (AreaDesc.mk 700 60) [] ffs_misc_reset
      (by decide)).1 (by decide)⟩,
   ⟨by decide, by decide,
    (claim_C7_amended exFlashC7 (AreaDesc.mk 900 60) [] ffs_misc_reset
      (by decide)).2 (by decide)⟩⟩

/-! Frame lemmas: the merge operations touch only the object index,
`ffs_next_id`, the root pointer and the pools — never the area table or the
ghost trace; the enumeration and repair phases never touch the trace. -/

/-- Areas and trace of `modifyInode`. -/
@[simp] theorem modifyInode_frame (s : FfsState) (id : Nat) (f : Inode → Inode) :
    (modifyInode s id f).ffs_areas = s.ffs_areas ∧
    (modifyInode s id f).trace = s.trace := ⟨rfl, rfl⟩

/-- Areas and trace of `modifyBlock`. -/
@[simp] theorem modifyBlock_frame (s : FfsState) (id : Nat) (f : Block → Block) :
    (modifyBlock s id f).ffs_areas = s.ffs_areas ∧
    (modifyBlock s id f).trace = s.trace := ⟨rfl, rfl⟩

/-- Areas and trace of `ffs_hash_insert`. -/
@[simp] theorem ffs_hash_insert_frame (o : FfsObject) (s : FfsState) :
    (ffs_hash_insert o s).ffs_areas = s.ffs_areas ∧
    (ffs_hash_insert o s).trace = s.trace := ⟨rfl, rfl⟩

/-- Areas and trace of `updNextId`. -/
@[simp] theorem updNextId_frame (id : Nat) (s : FfsState) :
    (updNextId id s).ffs_areas = s.ffs_areas ∧
    (updNextId id s).trace = s.trace := by
  unfold updNextId; split <;> exact ⟨rfl, rfl⟩

/-- Areas and trace of `ffs_inode_err_free`. -/
@[simp] theorem ffs_inode_err_free_frame (isNew : Bool) (s : FfsState) :
    (ffs_inode_err_free isNew s).ffs_areas = s.ffs_areas ∧
    (ffs_inode_err_free isNew s).trace = s.trace := by
  unfold ffs_inode_err_free; split <;> exact ⟨rfl, rfl⟩

/-- Areas and trace of `ffs_inode_remove_child`. -/
@[simp] theorem ffs_inode_remove_child_frame (s : FfsState) (childId : Nat) :
    (ffs_inode_remove_child s childId).ffs_areas = s.ffs_areas ∧
    (ffs_inode_remove_child s childId).trace = s.trace := by
  unfold ffs_inode_remove_child
  split <;> first | exact ⟨rfl, rfl⟩ | (split <;> exact ⟨rfl, rfl⟩)

/-- Areas and trace of `ffs_inode_add_child`. -/
@[simp] theorem ffs_inode_add_child_frame (s : FfsState) (p c : Nat) :
    (ffs_inode_add_child s p c).ffs_areas = s.ffs_areas ∧
    (ffs_inode_add_child s p c).trace = s.trace := ⟨rfl, rfl⟩

/-- Areas and trace of `ffs_inode_insert_block`. -/
@[simp] theorem ffs_inode_insert_block_frame (s : FfsState) (i b : Nat) :
    (ffs_inode_insert_block s i b).ffs_areas = s.ffs_areas ∧
    (ffs_inode_insert_block s i b).trace = s.trace := ⟨rfl, rfl⟩

/-- Areas and trace of `ffs_restore_dummy_inode`. -/
@[simp] theorem ffs_restore_dummy_inode_frame (id : Nat) (is_dir : Bool)
    (s : FfsState) :
    (ffs_restore_dummy_inode id is_dir s).2.ffs_areas = s.ffs_areas ∧
    (ffs_restore_dummy_inode id is_dir s).2.trace = s.trace := by
  unfold ffs_restore_dummy_inode; split <;> exact ⟨rfl, rfl⟩

/-- Areas and trace of `ffs_restore_inode_commit`. -/
theorem ffs_restore_inode_commit_frame (d : DiskInode) (doAdd isNew : Bool)
    (s : FfsState) :
    (ffs_restore_inode_commit d doAdd isNew s).2.ffs_areas = s.ffs_areas ∧
    (ffs_restore_inode_commit d doAdd isNew s).2.trace = s.trace := by
  unfold ffs_restore_inode_commit
  split
  · split
    · split
      · split <;> simp
      · rcases hdum : ffs_restore_dummy_inode d.fdi_parent_id true s with ⟨rc, s1⟩
        have hfr := ffs_restore_dummy_inode_frame d.fdi_parent_id true s
        rw [hdum] at hfr
        cases rc <;> simp_all
        split <;> simp_all
      · simp
    · split <;> simp
  · simp


/-- Areas and trace of `ffs_restore_inode`. -/
theorem ffs_restore_inode_frame (d : DiskInode) (a o : Nat) (s : FfsState) :
    (ffs_restore_inode d a o s).2.ffs_areas = s.ffs_areas ∧
    (ffs_restore_inode d a o s).2.trace = s.trace := by
  unfold ffs_restore_inode
  split
  · split
    · exact ⟨rfl, rfl⟩
    · simp only [ffs_restore_inode_commit_frame]
      constructor <;> (split <;> [skip; rfl]) <;> (split <;> simp)
  · split
    · exact ⟨rfl, rfl⟩
    · simp only [ffs_restore_inode_commit_frame]
      simp
  · exact ⟨rfl, rfl⟩

/-- Areas and trace of `ffs_restore_block_attach`. -/
theorem ffs_restore_block_attach_frame (d : DiskBlock) (s1 : FfsState) :
    (ffs_restore_block_attach d s1).2.ffs_areas = s1.ffs_areas ∧
    (ffs_restore_block_attach d s1).2.trace = s1.trace := by
  unfold ffs_restore_block_attach
  split
  · constructor <;> simp
  · rcases hdum : ffs_restore_dummy_inode d.fdb_inode_id false s1 with ⟨rc, s2⟩
    have hfr := ffs_restore_dummy_inode_frame d.fdb_inode_id false s1
    rw [hdum] at hfr
    cases rc <;> simp_all
  · exact ⟨rfl, rfl⟩

/-- Areas and trace of `ffs_restore_block`. -/
theorem ffs_restore_block_frame (d : DiskBlock) (a o : Nat) (s : FfsState) :
    (ffs_restore_block d a o s).2.ffs_areas = s.ffs_areas ∧
    (ffs_restore_block d a o s).2.trace = s.trace := by
  unfold ffs_restore_block
  split
  · split
    · exact ⟨rfl, rfl⟩
    · constructor <;> (split <;> simp)
  · split
    · exact ⟨rfl, rfl⟩
    · simpa using ffs_restore_block_attach_frame d
        (ffs_hash_insert (.block (ffs_block_from_disk blankBlock d a o))
          { s with block_pool := s.block_pool - 1 })
  · exact ⟨rfl, rfl⟩

/-- Areas and trace of `ffs_restore_object`. -/
theorem ffs_restore_object_frame (d : DiskObject) (s : FfsState) :
    (ffs_restore_object d s).2.ffs_areas = s.ffs_areas ∧
    (ffs_restore_object d s).2.trace = s.trace := by
  unfold ffs_restore_object
  split
  · exact ffs_restore_inode_frame _ _ _ _
  · split
    · exact ffs_restore_block_frame _ _ _ _
    · exact ⟨rfl, rfl⟩

/-- A successfully read record has size at least the fixed inode-header size
(the smaller of the two header sizes) and lies entirely inside the area. -/
theorem size_inode_obj (di : DiskInode) (ai off : Nat) :
    ffs_restore_disk_object_size
      { fdo_type := FFS_OBJECT_TYPE_INODE, fdo_disk_inode := di,
        fdo_disk_block := blankDiskBlock, fdo_area_idx := ai,
        fdo_offset := off } = DISK_INODE_SIZE + di.fdi_filename_len := by
  simp [ffs_restore_disk_object_size]

theorem size_block_obj (db : DiskBlock) (ai off : Nat) :
    ffs_restore_disk_object_size
      { fdo_type := FFS_OBJECT_TYPE_BLOCK, fdo_disk_inode := blankDiskInode,
        fdo_disk_block := db, fdo_area_idx := ai,
        fdo_offset := off } = DISK_BLOCK_SIZE + db.fdb_data_len := by
  simp [ffs_restore_disk_object_size, FFS_OBJECT_TYPE_INODE,
    FFS_OBJECT_TYPE_BLOCK]

theorem reader_ok_bounds (flash : Flash) (area : Area) (ai cur : Nat)
    (d : DiskObject)
    (h : ffs_restore_disk_object flash area ai cur = Except.ok d) :
    DISK_INODE_SIZE ≤ ffs_restore_disk_object_size d ∧
    cur + ffs_restore_disk_object_size d ≤ area.fa_length := by
  have h20 : DISK_INODE_SIZE = 20 := rfl
  have h24 : DISK_BLOCK_SIZE = 24 := rfl
  unfold ffs_restore_disk_object at h
  split at h
  · exact absurd h (by simp)
  · split at h
    · exact absurd h (by simp)
    · exact absurd h (by simp)
    · exact absurd h (by simp)
    · rename_i dd
      split at h
      · exact absurd h (by simp)
      · rename_i hin
        cases h
        rw [size_inode_obj]
        omega
    · rename_i dd
      split at h
      · exact absurd h (by simp)
      · rename_i hin
        cases h
        rw [size_block_obj]
        omega

/-- Areas and trace through a terminated scan. -/
theorem scanLoopF_frame (flash : Flash) :
    ∀ (fuel idx cur : Nat) (s : FfsState) (rc : FfsRc) (s' : FfsState),
      scanLoopF flash fuel idx cur s = some (rc, s') →
      s'.ffs_areas = s.ffs_areas ∧ s'.trace = s.trace := by
  intro fuel
  induction fuel with
  | zero =>
      intro idx cur s rc s' h
      exact absurd h (by simp [scanLoopF])
  | succ n ih =>
      intro idx cur s rc s' h
      unfold scanLoopF at h
      split at h
      · simp at h
        rw [← h.2]
        exact ⟨rfl, rfl⟩
      · split at h
        · rename_i d0 hd0
          have h2 := ih _ _ _ _ _ h
          have h3 := ffs_restore_object_frame d0 s
          exact ⟨h2.1.trans h3.1, h2.2.trans h3.2⟩
        · simp at h; rw [← h.2]; exact ⟨rfl, rfl⟩
        · simp at h; rw [← h.2]; exact ⟨rfl, rfl⟩
        · simp at h; rw [← h.2]; exact ⟨rfl, rfl⟩

/-- Fuel `fa_length + 1 - cur` (hence `fa_length + 1` from the start of the
area) always suffices: every accepted record advances the cursor by its
on-disk size, which is positive and keeps the cursor inside the area, so the
scan reaches an `empty`, `range` or error stop before the fuel runs out. -/
theorem scanLoopF_sufficient (flash : Flash) :
    ∀ (fuel idx cur : Nat) (s : FfsState) (area : Area),
      s.ffs_areas.get? idx = some area →
      area.fa_length < cur + fuel → 1 ≤ fuel →
      (scanLoopF flash fuel idx cur s).isSome = true := by
  intro fuel
  induction fuel with
  | zero => intro _ _ _ _ _ _ hf; omega
  | succ n ih =>
      intro idx cur s area hget hlen _
      unfold scanLoopF
      simp only [hget]
      cases hr : ffs_restore_disk_object flash area idx cur with
      | error e => cases e <;> simp [hr]
      | ok d =>
          simp only [hr]
          have hb := reader_ok_bounds flash area idx cur d hr
          have hfr := (ffs_restore_object_frame d s).1
          have hget2 : (ffs_restore_object d s).2.ffs_areas.get? idx = some area := by
            rw [hfr]; exact hget
          have hsz : DISK_INODE_SIZE = 20 := rfl
          exact ih idx (cur + ffs_restore_disk_object_size d)
            (ffs_restore_object d s).2 area hget2 (by omega) (by omega)

/-- C8: for every area of finite declared length the scan terminates: a
record accepted at the cursor has on-disk size at least the fixed
record-header size — a positive constant — and ends inside the area, so the
cursor strictly increases while bounded by the area length, and fuel
exceeding `fa_length - cur` always brings `scanLoopF` to one of its stopping
results (`isSome`). -/
theorem claim_C8_scan_terminates :
    (∀ (flash : Flash) (area : Area) (ai cur : Nat) (d : DiskObject),
        ffs_restore_disk_object flash area ai cur = Except.ok d →
        DISK_INODE_SIZE ≤ ffs_restore_disk_object_size d ∧
        cur + ffs_restore_disk_object_size d ≤ area.fa_length) ∧
    0 < DISK_INODE_SIZE ∧
    (∀ (flash : Flash) (idx cur : Nat) (s : FfsState) (area : Area) (fuel : Nat),
        s.ffs_areas.get? idx = some area →
        area.fa_length < cur + fuel → 1 ≤ fuel →
        (scanLoopF flash fuel idx cur s).isSome = true) :=
  ⟨reader_ok_bounds, by decide,
   fun flash idx cur s area fuel h1 h2 h3 =>
     scanLoopF_sufficient flash fuel idx cur s area h1 h2 h3⟩

/-- A state whose area table holds the example data area. -/
def exStateC8 : FfsState := { ffs_misc_reset with ffs_areas := [exArea0] }

/-- Witness for C8: the record at offset 8 of the example area has size 20
within the area bound, and fuel 53 terminates the scan of the example
area. -/
theorem claim_C8_witness :
    (ffs_restore_disk_object exFlashC1 exArea0 0 8 = Except.ok exDiskObjC10 ∧
     DISK_INODE_SIZE ≤ ffs_restore_disk_object_size exDiskObjC10 ∧
     8 + ffs_restore_disk_object_size exDiskObjC10 ≤ exArea0.fa_length) ∧
    (exStateC8.ffs_areas.get? 0 = some exArea0 ∧
     exArea0.fa_length < 8 + 53 ∧ 1 ≤ 53 ∧
     (scanLoopF exFlashC1 53 0 8 exStateC8).isSome = true) :=
  ⟨⟨by decide,
    claim_C8_scan_terminates.1 exFlashC1 exArea0 0 8 exDiskObjC10 (by decide)⟩,
   ⟨by decide, by decide, by decide,
    claim_C8_scan_terminates.2.2 exFlashC1 0 8 exStateC8 exArea0 53
      (by decide) (by decide) (by decide)⟩⟩

/-- Areas and trace of a fold of inode modifications. -/
theorem foldl_modifyInode_frame (g : Inode → Inode) (l : List Nat) :
    ∀ st : FfsState,
      ((l.foldl (fun st c => modifyInode st c g) st).ffs_areas = st.ffs_areas ∧
       (l.foldl (fun st c => modifyInode st c g) st).trace = st.trace) := by
  induction l with
  | nil => intro st; exact ⟨rfl, rfl⟩
  | cons c rest ih =>
      intro st
      have h := ih (modifyInode st c g)
      simpa using h

/-- Areas and trace of `ffs_inode_unlink_parent`. -/
@[simp] theorem ffs_inode_unlink_parent_frame (s : FfsState) (iid : Nat) :
    (ffs_inode_unlink_parent s iid).ffs_areas = s.ffs_areas ∧
    (ffs_inode_unlink_parent s iid).trace = s.trace := by
  unfold ffs_inode_unlink_parent
  split
  · split
    · exact ⟨rfl, rfl⟩
    · exact ⟨rfl, rfl⟩
  · exact ⟨rfl, rfl⟩

/-- Areas and trace of `ffs_inode_detach_children`. -/
@[simp] theorem ffs_inode_detach_children_frame (s : FfsState) (iid : Nat) :
    (ffs_inode_detach_children s iid).ffs_areas = s.ffs_areas ∧
    (ffs_inode_detach_children s iid).trace = s.trace := by
  unfold ffs_inode_detach_children
  exact foldl_modifyInode_frame _ _ s

/-- Areas and trace of `ffs_inode_delete_from_ram`. -/
@[simp] theorem ffs_inode_delete_from_ram_frame (s : FfsState) (iid : Nat) :
    (ffs_inode_delete_from_ram s iid).ffs_areas = s.ffs_areas ∧
    (ffs_inode_delete_from_ram s iid).trace = s.trace := by
  unfold ffs_inode_delete_from_ram
  have h1 := ffs_inode_unlink_parent_frame s iid
  have h2 := ffs_inode_detach_children_frame (ffs_inode_unlink_parent s iid) iid
  exact ⟨h2.1.trans h1.1, h2.2.trans h1.2⟩

/-- Areas and trace of `ffs_block_unlink_owner`. -/
@[simp] theorem ffs_block_unlink_owner_frame (s : FfsState) (bid : Nat) :
    (ffs_block_unlink_owner s bid).ffs_areas = s.ffs_areas ∧
    (ffs_block_unlink_owner s bid).trace = s.trace := by
  unfold ffs_block_unlink_owner
  split
  · exact ⟨rfl, rfl⟩
  · exact ⟨rfl, rfl⟩

/-- Areas and trace of `ffs_block_delete_from_ram`. -/
@[simp] theorem ffs_block_delete_from_ram_frame (s : FfsState) (bid : Nat) :
    (ffs_block_delete_from_ram s bid).ffs_areas = s.ffs_areas ∧
    (ffs_block_delete_from_ram s bid).trace = s.trace := by
  unfold ffs_block_delete_from_ram
  have h1 := ffs_block_unlink_owner_frame s bid
  exact ⟨h1.1, h1.2⟩

/-- Areas and trace of `ffs_delete_if_trash`. -/
@[simp] theorem ffs_delete_if_trash_frame (s : FfsState) (o : FfsObject) :
    (ffs_delete_if_trash s o).ffs_areas = s.ffs_areas ∧
    (ffs_delete_if_trash s o).trace = s.trace := by
  unfold ffs_delete_if_trash
  split <;> (split <;> simp)

/-- Areas and trace of `sweepStep`. -/
@[simp] theorem sweepStep_frame (s : FfsState) (oid : Nat) :
    (sweepStep s oid).ffs_areas = s.ffs_areas ∧
    (sweepStep s oid).trace = s.trace := by
  unfold sweepStep
  split
  · exact ⟨rfl, rfl⟩
  · simp

/-- Areas and trace of a fold of sweep steps. -/
theorem foldl_sweepStep_frame (l : List Nat) :
    ∀ st : FfsState,
      (l.foldl sweepStep st).ffs_areas = st.ffs_areas ∧
      (l.foldl sweepStep st).trace = st.trace := by
  induction l with
  | nil => intro st; exact ⟨rfl, rfl⟩
  | cons c rest ih =>
      intro st
      have h := ih (sweepStep st c)
      simpa using h

/-- The sweep appends its phase marker and leaves the area table alone. -/
theorem ffs_restore_sweep_frame (s : FfsState) :
    (ffs_restore_sweep s).ffs_areas = s.ffs_areas ∧
    (ffs_restore_sweep s).trace = s.trace ++ [Phase.pSweep] := by
  unfold ffs_restore_sweep
  have h := foldl_sweepStep_frame
    (({ s with trace := s.trace ++ [Phase.pSweep] } : FfsState).ffs_hash.map
      FfsObject.fo_id)
    { s with trace := s.trace ++ [Phase.pSweep] }
  exact ⟨h.1, h.2⟩

/-- Areas and trace of `ffs_restore_area_contents`. -/
theorem ffs_restore_area_contents_frame (flash : Flash) (idx : Nat)
    (s : FfsState) :
    (ffs_restore_area_contents flash idx s).2.ffs_areas = s.ffs_areas ∧
    (ffs_restore_area_contents flash idx s).2.trace = s.trace := by
  unfold ffs_restore_area_contents
  split
  · exact ⟨rfl, rfl⟩
  · rename_i area harea
    cases hscan : scanLoopF flash (area.fa_length + 1) idx DISK_AREA_SIZE s with
    | none => simp [hscan]
    | some p =>
        rcases p with ⟨rc, s'⟩
        have h := scanLoopF_frame flash _ idx DISK_AREA_SIZE s rc s' hscan
        simp [hscan, h.1, h.2]

/-- Trace of `ffs_format_area`. -/
@[simp] theorem ffs_format_area_trace (flash : Flash) (idx : Nat)
    (s : FfsState) : (ffs_format_area flash idx s).2.trace = s.trace := by
  unfold ffs_format_area
  split
  · rfl
  · split <;> rfl

/-- Trace of `ffs_restore_mark_bad_area`. -/
@[simp] theorem ffs_restore_mark_bad_area_trace (s : FfsState) (bad : Nat) :
    (ffs_restore_mark_bad_area s bad).trace = s.trace := rfl

/-- Trace of `ffs_restore_corrupt_flash`. -/
theorem ffs_restore_corrupt_flash_trace (flash : Flash) (s : FfsState) :
    (ffs_restore_corrupt_flash flash s).2.trace = s.trace := by
  unfold ffs_restore_corrupt_flash
  split
  · rfl
  · rename_i good bad hpair
    rcases hs : ffs_restore_area_contents flash good
        (ffs_restore_mark_bad_area s bad) with ⟨rc2, s2⟩
    have h2 := (ffs_restore_area_contents_frame flash good
      (ffs_restore_mark_bad_area s bad)).2
    rw [hs] at h2
    cases rc2 <;>
      first
        | (simp only []; rw [hs]; exact h2)
        | (simp only []
           rw [hs]
           rcases hf : ffs_format_area flash bad s2 with ⟨rc3, s3⟩
           have h3 := ffs_format_area_trace flash bad s2
           rw [hf] at h3
           cases rc3 <;> simp_all)

/-- Trace of `ffs_misc_set_num_areas`. -/
@[simp] theorem ffs_misc_set_num_areas_trace (n : Nat) (s : FfsState) :
    (ffs_misc_set_num_areas n s).2.trace = s.trace := by
  unfold ffs_misc_set_num_areas
  split <;> rfl

/-- Trace of `ffs_restore_one_area`. -/
theorem ffs_restore_one_area_trace (flash : Flash) (d : AreaDesc)
    (s : FfsState) : (ffs_restore_one_area flash d s).2.trace = s.trace := by
  unfold ffs_restore_one_area
  split
  · rfl
  · rfl
  · split
    · rfl
    · rcases hn : ffs_misc_set_num_areas (s.ffs_areas.length + 1) s with ⟨rcn, s1⟩
      have h1 := ffs_misc_set_num_areas_trace (s.ffs_areas.length + 1) s
      rw [hn] at h1
      cases rcn <;> simp only []
      case ok =>
        rename_i da heq hand
        split
        · exact h1
        · have h2 := (ffs_restore_area_contents_frame flash
            (s1.ffs_areas.length - 1)
            (setArea s1 (s1.ffs_areas.length - 1)
              { fa_offset := d.fad_offset, fa_length := d.fad_length,
                fa_cur := DISK_AREA_SIZE, fa_gc_seq := da.fda_gc_seq,
                fa_id := da.fda_id })).2
          exact h2.trans h1
      all_goals exact h1

/-- Trace of the area enumeration loop. -/
theorem ffs_restore_areas_trace (flash : Flash) :
    ∀ (descs : List AreaDesc) (s : FfsState),
      (ffs_restore_areas flash descs s).2.trace = s.trace := by
  intro descs
  induction descs with
  | nil => intro s; rfl
  | cons d rest ih =>
      intro s
      unfold ffs_restore_areas
      split
      · rfl
      · rcases h1 : ffs_restore_one_area flash d s with ⟨rc1, s1⟩
        have ht := ffs_restore_one_area_trace flash d s
        rw [h1] at ht
        cases rc1 <;> dsimp only
        case ok => exact (ih s1).trans ht
        all_goals exact ht

/-- Trace of the scratch-recovery phase. -/
theorem ffs_restore_scratch_phase_trace (flash : Flash) (s : FfsState) :
    (ffs_restore_scratch_phase flash s).2.trace = s.trace := by
  unfold ffs_restore_scratch_phase
  split
  · exact ffs_restore_corrupt_flash_trace flash s
  · rfl

/-- Scratch validation appends its phase marker. -/
theorem ffs_misc_validate_scratch_trace (s : FfsState) :
    (ffs_misc_validate_scratch s).2.trace = s.trace ++ [Phase.pVScratch] := by
  unfold ffs_misc_validate_scratch
  dsimp only
  split
  · rfl
  · split
    · rfl
    · split <;> rfl

/-- Root validation appends its phase marker. -/
theorem ffs_misc_validate_root_trace (s : FfsState) :
    (ffs_misc_validate_root s).2.trace = s.trace ++ [Phase.pVRoot] := by
  unfold ffs_misc_validate_root
  dsimp only
  split <;> rfl

/-- The size computation appends its phase marker. -/
theorem ffs_misc_set_max_block_data_size_trace (s : FfsState) :
    (ffs_misc_set_max_block_data_size s).trace = s.trace ++ [Phase.pSetMax] :=
  rfl

/-- Every run of `ffs_restore_full` either succeeds or hands back the reset
state (the `err` label runs `ffs_misc_reset` before returning). -/
theorem restore_full_ok_or_reset (flash : Flash) (descs : List AreaDesc) :
    (ffs_restore_full flash descs).1 = FfsRc.ok ∨
    (ffs_restore_full flash descs).2 = ffs_misc_reset := by
  unfold ffs_restore_full
  rcases h1 : ffs_restore_areas flash descs ffs_misc_reset with ⟨rc1, s1⟩
  cases rc1 <;> dsimp only
  case ok =>
    rcases h2 : ffs_restore_scratch_phase flash s1 with ⟨rc2, s2⟩
    cases rc2 <;> dsimp only
    case ok =>
      rcases h3 : ffs_misc_validate_scratch s2 with ⟨rc3, s3⟩
      cases rc3 <;> dsimp only
      case ok =>
        rcases h4 : ffs_misc_validate_root (ffs_restore_sweep s3) with ⟨rc4, s4⟩
        cases rc4 <;> dsimp only
        case ok => exact Or.inl rfl
        all_goals exact Or.inr rfl
      all_goals exact Or.inr rfl
    all_goals exact Or.inr rfl
  all_goals exact Or.inr rfl

/-- C3: whenever `ffs_restore_full` returns a nonzero code, all process-wide
restore state — object index, area table, scratch index, root pointer,
`ffs_next_id` — has been reset before returning: the returned state is
exactly `ffs_misc_reset`. -/
theorem claim_C3_error_resets_state :
    ∀ (flash : Flash) (descs : List AreaDesc),
      (ffs_restore_full flash descs).1 ≠ FfsRc.ok →
      (ffs_restore_full flash descs).2.ffs_hash = [] ∧
      (ffs_restore_full flash descs).2.ffs_areas = [] ∧
      (ffs_restore_full flash descs).2.ffs_scratch_area_idx = FFS_AREA_ID_NONE ∧
      (ffs_restore_full flash descs).2.ffs_root_dir = none ∧
      (ffs_restore_full flash descs).2.ffs_next_id = 0 ∧
      (ffs_restore_full flash descs).2 = ffs_misc_reset := by
  intro flash descs h
  rcases restore_full_ok_or_reset flash descs with hok | hre
  · exact absurd hok h
  · rw [hre]
    exact ⟨rfl, rfl, rfl, rfl, rfl, rfl⟩

/-- A flash whose every header parse finds no magic. -/
def exFlashBlank : Flash :=
  { headerAt := fun _ => .badMagic, cellAt := fun _ _ => .erased,
    canFormat := fun _ => true }

/-- Witness for C3: an empty descriptor set yields no scratch area and no
corrupt-scratch pair, so the restore fails with `corrupt` and hands back the
reset state. -/
theorem claim_C3_witness :
    (ffs_restore_full exFlashBlank []).1 ≠ FfsRc.ok ∧
    ((ffs_restore_full exFlashBlank []).2.ffs_hash = [] ∧
     (ffs_restore_full exFlashBlank []).2.ffs_areas = [] ∧
     (ffs_restore_full exFlashBlank []).2.ffs_scratch_area_idx = FFS_AREA_ID_NONE ∧
     (ffs_restore_full exFlashBlank []).2.ffs_root_dir = none ∧
     (ffs_restore_full exFlashBlank []).2.ffs_next_id = 0 ∧
     (ffs_restore_full exFlashBlank []).2 = ffs_misc_reset) :=
  ⟨by decide, claim_C3_error_resets_state exFlashBlank [] (by decide)⟩

/-- C4 (amended): on every successful run the final phases execute in the
source's order — scratch validation first, then the sweep, then root
validation, and the block-size computation last — as recorded by the ghost
phase trace. -/
theorem claim_C4_amended_order :
    ∀ (flash : Flash) (descs : List AreaDesc),
      (ffs_restore_full flash descs).1 = FfsRc.ok →
      (ffs_restore_full flash descs).2.trace =
        [Phase.pVScratch, Phase.pSweep, Phase.pVRoot, Phase.pSetMax] := by
  intro flash descs
  unfold ffs_restore_full
  rcases h1 : ffs_restore_areas flash descs ffs_misc_reset with ⟨rc1, s1⟩
  have ht1 : s1.trace = [] := by
    have h := ffs_restore_areas_trace flash descs ffs_misc_reset
    rw [h1] at h; exact h
  cases rc1 <;> dsimp only
  case ok =>
    rcases h2 : ffs_restore_scratch_phase flash s1 with ⟨rc2, s2⟩
    have ht2 : s2.trace = [] := by
      have h := ffs_restore_scratch_phase_trace flash s1
      rw [h2] at h; rw [h, ht1]
    cases rc2 <;> dsimp only
    case ok =>
      rcases h3 : ffs_misc_validate_scratch s2 with ⟨rc3, s3⟩
      have ht3 : s3.trace = [Phase.pVScratch] := by
        have h := ffs_misc_validate_scratch_trace s2
        rw [h3] at h; rw [h, ht2]; rfl
      cases rc3 <;> dsimp only
      case ok =>
        rcases h4 : ffs_misc_validate_root (ffs_restore_sweep s3) with ⟨rc4, s4⟩
        have hts : (ffs_restore_sweep s3).trace =
            [Phase.pVScratch, Phase.pSweep] := by
          rw [(ffs_restore_sweep_frame s3).2, ht3]; rfl
        have ht4 : s4.trace = [Phase.pVScratch, Phase.pSweep, Phase.pVRoot] := by
          have h := ffs_misc_validate_root_trace (ffs_restore_sweep s3)
          rw [h4] at h; rw [h, hts]; rfl
        cases rc4 <;> dsimp only
        case ok =>
          intro _
          rw [ffs_misc_set_max_block_data_size_trace s4, ht4]
          rfl
        all_goals (intro hcon; simp at hcon)
      all_goals (intro hcon; simp at hcon)
    all_goals (intro hcon; simp at hcon)
  all_goals (intro hcon; simp at hcon)

/-- Witness for the amended C4 at the minimal valid image. -/
theorem claim_C4_amended_witness :
    (ffs_restore_full exFlashC4 exDescsC4).1 = FfsRc.ok ∧
    (ffs_restore_full exFlashC4 exDescsC4).2.trace =
      [Phase.pVScratch, Phase.pSweep, Phase.pVRoot, Phase.pSetMax] :=
  ⟨by decide, claim_C4_amended_order exFlashC4 exDescsC4 (by decide)⟩

/-! Machinery for the sweep's guarantees: presence of inodes by id,
absence of dangling owner pointers, uniqueness of ids in the index. -/

/-- Whether some inode entry of the list carries the given id. -/
def anyInodeWithId (l : List FfsObject) (j : Nat) : Bool :=
  l.any (fun o => isInodeWithId o j)

/-- An inode with the given id is present in the state's index. -/
def inodePresentB (s : FfsState) (j : Nat) : Bool :=
  anyInodeWithId s.ffs_hash j

/-- A block entry's owning-inode pointer, when set, names an inode present
in the list (pointer validity). -/
def blockOwnerOkB (l : List FfsObject) (o : FfsObject) : Bool :=
  match o with
  | .inode _ => true
  | .block b =>
      match b.fb_inode with
      | none => true
      | some j => anyInodeWithId l j

/-- No block of the list has a dangling owning-inode pointer. -/
def noDanglingHash (l : List FfsObject) : Bool :=
  l.all (blockOwnerOkB l)

/-- The well-formedness the sweep relies on: ids are unique across the index
(each C object is one list node) and owner pointers are not dangling. -/
def GoodHash (s : FfsState) : Prop :=
  (s.ffs_hash.map FfsObject.fo_id).Nodup ∧ noDanglingHash s.ffs_hash = true

/-- Unfolding of `noDanglingHash` to its pointwise meaning. -/
theorem noDanglingHash_iff (l : List FfsObject) :
    noDanglingHash l = true ↔
      ∀ b : Block, FfsObject.block b ∈ l → ∀ j, b.fb_inode = some j →
        anyInodeWithId l j = true := by
  unfold noDanglingHash
  rw [List.all_eq_true]
  constructor
  · intro h b hb j hj
    have := h _ hb
    simpa [blockOwnerOkB, hj] using this
  · intro h o ho
    cases o with
    | inode i => simp [blockOwnerOkB]
    | block b =>
        cases hj : b.fb_inode with
        | none => simp [blockOwnerOkB, hj]
        | some j => simpa [blockOwnerOkB, hj] using h b ho j hj

/-- Two index members with the same id are the same entry. -/
theorem mem_same_id_eq (l : List FfsObject)
    (h : (l.map FfsObject.fo_id).Nodup) (o o' : FfsObject)
    (ho : o ∈ l) (ho' : o' ∈ l) (hid : o.fo_id = o'.fo_id) : o = o' := by
  rw [List.Nodup, List.pairwise_map] at h
  by_contra hne
  exact List.Pairwise.forall (fun a b hab => fun hh => hab hh.symm) h ho ho' hne
    hid

/-- A failed lookup means no member carries the id. -/
theorem find_none_no_id (l : List FfsObject) (k : Nat)
    (h : l.find? (fun x => decide (x.fo_id = k)) = none) :
    ∀ o ∈ l, o.fo_id ≠ k := by
  intro o ho
  have := List.find?_eq_none.mp h o ho
  simpa using this

/-- Effect of `modifyInodeList` on ids, block membership and inode
presence, for an id-preserving modification of the matched entry. -/
theorem modifyInodeList_ids (l : List FfsObject) (id : Nat) (f : Inode → Inode)
    (hf : ∀ i : Inode, i.fi_id = id → (f i).fi_id = id) :
    (modifyInodeList l id f).map FfsObject.fo_id = l.map FfsObject.fo_id ∧
    (∀ b : Block, (FfsObject.block b ∈ modifyInodeList l id f) ↔
      FfsObject.block b ∈ l) ∧
    (∀ j, anyInodeWithId (modifyInodeList l id f) j = anyInodeWithId l j) := by
  induction l with
  | nil => exact ⟨rfl, fun b => Iff.rfl, fun j => rfl⟩
  | cons o rest ih =>
      cases o with
      | inode i =>
          by_cases hid : i.fi_id = id
          · refine ⟨?_, ?_, ?_⟩
            · simp [modifyInodeList, hid, FfsObject.fo_id, hf i hid]
            · intro b; simp [modifyInodeList, hid]
            · intro j
              simp only [modifyInodeList, if_pos hid, anyInodeWithId, List.any_cons]
              have : isInodeWithId (.inode (f i)) j = isInodeWithId (.inode i) j := by
                simp [isInodeWithId, hf i hid, hid]
              rw [this]
          · refine ⟨?_, ?_, ?_⟩
            · simpa [modifyInodeList, hid, FfsObject.fo_id] using ih.1
            · intro b; simpa [modifyInodeList, hid] using ih.2.1 b
            · intro j
              simp only [modifyInodeList, if_neg hid, anyInodeWithId, List.any_cons]
              have hih := ih.2.2 j
              simp only [anyInodeWithId] at hih
              rw [hih]
      | block b0 =>
          refine ⟨?_, ?_, ?_⟩
          · simpa [modifyInodeList, FfsObject.fo_id] using ih.1
          · intro b
            simp only [modifyInodeList, List.mem_cons]
            exact or_congr Iff.rfl (ih.2.1 b)
          · intro j
            simp only [modifyInodeList, anyInodeWithId, List.any_cons]
            have hih := ih.2.2 j
            simp only [anyInodeWithId] at hih
            rw [hih]

/-- Effect of `modifyBlockList` on ids, inode presence, inode membership and
origin of the block entries, for an id-preserving modification. -/
theorem modifyBlockList_ids (l : List FfsObject) (id : Nat) (f : Block → Block)
    (hf : ∀ b : Block, b.fb_id = id → (f b).fb_id = id) :
    (modifyBlockList l id f).map FfsObject.fo_id = l.map FfsObject.fo_id ∧
    (∀ j, anyInodeWithId (modifyBlockList l id f) j = anyInodeWithId l j) ∧
    (∀ b' : Block, FfsObject.block b' ∈ modifyBlockList l id f →
      FfsObject.block b' ∈ l ∨
      ∃ b : Block, FfsObject.block b ∈ l ∧ b.fb_id = id ∧ b' = f b) := by
  induction l with
  | nil => exact ⟨rfl, fun j => rfl, fun b' hb' => absurd hb' (by simp [modifyBlockList])⟩
  | cons o rest ih =>
      cases o with
      | block b0 =>
          by_cases hid : b0.fb_id = id
          · refine ⟨?_, ?_, ?_⟩
            · simp [modifyBlockList, hid, FfsObject.fo_id, hf b0 hid]
            · intro j
              simp [modifyBlockList, hid, anyInodeWithId, isInodeWithId]
            · intro b' hb'
              rw [modifyBlockList, if_pos hid] at hb'
              rcases List.mem_cons.mp hb' with h | h
              · exact Or.inr ⟨b0, by simp, hid, by injection h⟩
              · exact Or.inl (List.mem_cons_of_mem _ h)
          · refine ⟨?_, ?_, ?_⟩
            · simpa [modifyBlockList, hid, FfsObject.fo_id] using ih.1
            · intro j
              simp only [modifyBlockList, if_neg hid, anyInodeWithId, List.any_cons]
              have hih := ih.2.1 j
              simp only [anyInodeWithId] at hih
              rw [hih]
            · intro b' hb'
              rw [modifyBlockList, if_neg hid] at hb'
              rcases List.mem_cons.mp hb' with h | h
              · exact Or.inl (by rw [h]; simp)
              · rcases ih.2.2 b' h with h2 | ⟨b, hb, hbid, hb'eq⟩
                · exact Or.inl (List.mem_cons_of_mem _ h2)
                · exact Or.inr ⟨b, List.mem_cons_of_mem _ hb, hbid, hb'eq⟩
      | inode i =>
          refine ⟨?_, ?_, ?_⟩
          · simpa [modifyBlockList, FfsObject.fo_id] using ih.1
          · intro j
            simp only [modifyBlockList, anyInodeWithId, List.any_cons]
            have hih := ih.2.1 j
            simp only [anyInodeWithId] at hih
            rw [hih]
          · intro b' hb'
            rw [modifyBlockList] at hb'
            rcases List.mem_cons.mp hb' with h | h
            · exact absurd h (by simp)
            · rcases ih.2.2 b' h with h2 | ⟨b, hb, hbid, hb'eq⟩
              · exact Or.inl (List.mem_cons_of_mem _ h2)
              · exact Or.inr ⟨b, List.mem_cons_of_mem _ hb, hbid, hb'eq⟩

/-- Similarity of two index lists: same ids in the same order, same block
entries, same inode presence.  Produced by the in-place inode modifications
(child lists, parent links), which never move, retype or re-id an entry. -/
def HashSim (l l' : List FfsObject) : Prop :=
  l'.map FfsObject.fo_id = l.map FfsObject.fo_id ∧
  (∀ b : Block, (FfsObject.block b ∈ l') ↔ FfsObject.block b ∈ l) ∧
  (∀ j, anyInodeWithId l' j = anyInodeWithId l j)

theorem hashSim_refl (l : List FfsObject) : HashSim l l :=
  ⟨rfl, fun _ => Iff.rfl, fun _ => rfl⟩

theorem hashSim_trans {l1 l2 l3 : List FfsObject} (h1 : HashSim l1 l2)
    (h2 : HashSim l2 l3) : HashSim l1 l3 :=
  ⟨h2.1.trans h1.1, fun b => (h2.2.1 b).trans (h1.2.1 b),
   fun j => (h2.2.2 j).trans (h1.2.2 j)⟩

/-- `modifyInode` with an id-preserving modification yields a similar
index. -/
theorem hashSim_modifyInode (s : FfsState) (id : Nat) (f : Inode → Inode)
    (hf : ∀ i : Inode, i.fi_id = id → (f i).fi_id = id) :
    HashSim s.ffs_hash (modifyInode s id f).ffs_hash :=
  modifyInodeList_ids s.ffs_hash id f hf

/-- `ffs_inode_unlink_parent` yields a similar index. -/
theorem hashSim_unlink_parent (s : FfsState) (iid : Nat) :
    HashSim s.ffs_hash (ffs_inode_unlink_parent s iid).ffs_hash := by
  unfold ffs_inode_unlink_parent
  split
  · split
    · exact hashSim_modifyInode _ _ _ (fun i hi => hi)
    · exact hashSim_refl _
  · exact hashSim_refl _

/-- `ffs_inode_detach_children` yields a similar index. -/
theorem hashSim_detach_children (s : FfsState) (iid : Nat) :
    HashSim s.ffs_hash (ffs_inode_detach_children s iid).ffs_hash := by
  unfold ffs_inode_detach_children
  generalize ffs_inode_child_ids s iid = kids
  induction kids generalizing s with
  | nil => exact hashSim_refl _
  | cons c rest ih =>
      have h1 := hashSim_modifyInode s c
        (fun ch => { ch with fi_parent := none }) (fun i hi => hi)
      exact hashSim_trans h1 (ih (modifyInode s c
        (fun ch => { ch with fi_parent := none })))

/-- The index after deleting an inode: an index similar to the original,
filtered of the inode itself and of every block that references it. -/
theorem inode_delete_hash (st : FfsState) (k : Nat) :
    ∃ l2 : List FfsObject, HashSim st.ffs_hash l2 ∧
      (ffs_inode_delete_from_ram st k).ffs_hash =
        l2.filter (fun o => !(isInodeWithId o k) && !(isBlockOwnedBy o k)) := by
  refine ⟨(ffs_inode_detach_children (ffs_inode_unlink_parent st k) k).ffs_hash,
    ?_, rfl⟩
  exact hashSim_trans (hashSim_unlink_parent st k)
    (hashSim_detach_children (ffs_inode_unlink_parent st k) k)

/-- The index after deleting a block: an index similar to the original,
filtered of the block itself. -/
theorem block_delete_hash (st : FfsState) (k : Nat) :
    ∃ l1 : List FfsObject, HashSim st.ffs_hash l1 ∧
      (ffs_block_delete_from_ram st k).ffs_hash =
        l1.filter (fun o => !(isBlockWithId o k)) := by
  refine ⟨(ffs_block_unlink_owner st k).ffs_hash, ?_, rfl⟩
  unfold ffs_block_unlink_owner
  split
  · exact hashSim_modifyInode _ _ _ (fun i hi => hi)
  · exact hashSim_refl _

/-- A filtered index keeps distinct ids. -/
theorem nodup_filter_map (l : List FfsObject) (p : FfsObject → Bool)
    (h : (l.map FfsObject.fo_id).Nodup) :
    ((l.filter p).map FfsObject.fo_id).Nodup :=
  List.Nodup.sublist (List.Sublist.map _ (List.filter_sublist l)) h

/-- The invariant carried through the sweep's fold: ids unique, owner
pointers valid, and every block either still awaits its visit (its id is in
the remaining snapshot) or has already passed the trash test. -/
def SweepInv (R : List Nat) (st : FfsState) : Prop :=
  (st.ffs_hash.map FfsObject.fo_id).Nodup ∧
  noDanglingHash st.ffs_hash = true ∧
  ∀ b : Block, FfsObject.block b ∈ st.ffs_hash →
    b.fb_id ∈ R ∨ (b.fb_deleted = false ∧ b.fb_inode.isSome = true)

/-- Deleting an inode leaves no dangling owner pointer: the blocks that
referenced it are removed with it, and every other owner survives the
filter. -/
theorem noDangling_after_inode_delete (l l2 : List FfsObject) (k : Nat)
    (hsim : HashSim l l2) (hnd : noDanglingHash l = true) :
    noDanglingHash
      (l2.filter (fun o => !(isInodeWithId o k) && !(isBlockOwnedBy o k))) =
      true := by
  rw [noDanglingHash_iff]
  intro b hb j hj
  rw [List.mem_filter] at hb
  have hb2 : FfsObject.block b ∈ l := (hsim.2.1 b).mp hb.1
  have hjk : j ≠ k := by
    intro he
    subst he
    have hp := hb.2
    simp [isBlockOwnedBy, hj] at hp
  have hany : anyInodeWithId l j = true :=
    (noDanglingHash_iff l).mp hnd b hb2 j hj
  have hany2 : anyInodeWithId l2 j = true := by rw [hsim.2.2 j]; exact hany
  rcases List.any_eq_true.mp hany2 with ⟨o', ho', hio'⟩
  apply List.any_eq_true.mpr
  refine ⟨o', List.mem_filter.mpr ⟨ho', ?_⟩, hio'⟩
  cases o' with
  | inode i' =>
      have hi' : i'.fi_id = j := by simpa [isInodeWithId] using hio'
      simp [isInodeWithId, isBlockOwnedBy, hi', hjk]
  | block _ => simp [isInodeWithId] at hio'

/-- Deleting a block leaves no dangling owner pointer. -/
theorem noDangling_after_block_delete (l l1 : List FfsObject) (k : Nat)
    (hsim : HashSim l l1) (hnd : noDanglingHash l = true) :
    noDanglingHash (l1.filter (fun o => !(isBlockWithId o k))) = true := by
  rw [noDanglingHash_iff]
  intro b hb j hj
  rw [List.mem_filter] at hb
  have hb2 : FfsObject.block b ∈ l := (hsim.2.1 b).mp hb.1
  have hany : anyInodeWithId l j = true :=
    (noDanglingHash_iff l).mp hnd b hb2 j hj
  have hany2 : anyInodeWithId l1 j = true := by rw [hsim.2.2 j]; exact hany
  rcases List.any_eq_true.mp hany2 with ⟨o', ho', hio'⟩
  apply List.any_eq_true.mpr
  refine ⟨o', List.mem_filter.mpr ⟨ho', ?_⟩, hio'⟩
  cases o' with
  | inode i' => simp [isBlockWithId]
  | block _ => simp [isInodeWithId] at hio'

/-- One sweep step preserves the invariant, discharging the visited id. -/
theorem sweepStep_inv (k : Nat) (R : List Nat) (st : FfsState)
    (h : SweepInv (k :: R) st) : SweepInv R (sweepStep st k) := by
  obtain ⟨hnd, hdang, hD⟩ := h
  unfold sweepStep
  cases hfind : ffs_hash_find st k with
  | none =>
      refine ⟨hnd, hdang, ?_⟩
      intro b hb
      rcases hD b hb with hR | hgood
      · rcases List.mem_cons.mp hR with he | hr
        · exact absurd (by simpa [FfsObject.fo_id] using he)
            (find_none_no_id st.ffs_hash k hfind (.block b) hb)
        · exact Or.inl hr
      · exact Or.inr hgood
  | some o =>
      have ho_mem : o ∈ st.ffs_hash := List.mem_of_find?_eq_some hfind
      have ho_id : o.fo_id = k := by simpa using List.find?_some hfind
      dsimp only
      cases o with
      | inode i =>
          have hik : i.fi_id = k := ho_id
          subst hik
          simp only [ffs_delete_if_trash]
          split
          · obtain ⟨l2, hsim, hhash⟩ := inode_delete_hash st i.fi_id
            refine ⟨?_, ?_, ?_⟩
            · rw [hhash]
              exact nodup_filter_map _ _ (by rw [hsim.1]; exact hnd)
            · rw [hhash]
              exact noDangling_after_inode_delete st.ffs_hash l2 i.fi_id hsim
                hdang
            · intro b hb
              rw [hhash, List.mem_filter] at hb
              have hbmem : FfsObject.block b ∈ st.ffs_hash :=
                (hsim.2.1 b).mp hb.1
              rcases hD b hbmem with hR | hgood
              · rcases List.mem_cons.mp hR with he | hr
                · exfalso
                  have heq := mem_same_id_eq st.ffs_hash hnd
                    (FfsObject.block b) (FfsObject.inode i) hbmem ho_mem
                    (by simpa [FfsObject.fo_id] using he)
                  simp at heq
                · exact Or.inl hr
              · exact Or.inr hgood
          · refine ⟨hnd, hdang, ?_⟩
            intro b hb
            rcases hD b hb with hR | hgood
            · rcases List.mem_cons.mp hR with he | hr
              · exfalso
                have heq := mem_same_id_eq st.ffs_hash hnd
                  (FfsObject.block b) (FfsObject.inode i) hb ho_mem
                  (by simpa [FfsObject.fo_id] using he)
                simp at heq
              · exact Or.inl hr
            · exact Or.inr hgood
      | block b0 =>
          have hbk : b0.fb_id = k := ho_id
          subst hbk
          simp only [ffs_delete_if_trash]
          split
          · obtain ⟨l1, hsim, hhash⟩ := block_delete_hash st b0.fb_id
            refine ⟨?_, ?_, ?_⟩
            · rw [hhash]
              exact nodup_filter_map _ _ (by rw [hsim.1]; exact hnd)
            · rw [hhash]
              exact noDangling_after_block_delete st.ffs_hash l1 b0.fb_id hsim
                hdang
            · intro b hb
              rw [hhash, List.mem_filter] at hb
              have hbmem : FfsObject.block b ∈ st.ffs_hash :=
                (hsim.2.1 b).mp hb.1
              rcases hD b hbmem with hR | hgood
              · rcases List.mem_cons.mp hR with he | hr
                · exfalso
                  have hp := hb.2
                  simp [isBlockWithId, he] at hp
                · exact Or.inl hr
              · exact Or.inr hgood
          · rename_i htr
            refine ⟨hnd, hdang, ?_⟩
            intro b hb
            rcases hD b hb with hR | hgood
            · rcases List.mem_cons.mp hR with he | hr
              · have heq := mem_same_id_eq st.ffs_hash hnd
                  (FfsObject.block b) (FfsObject.block b0) hb ho_mem
                  (by simpa [FfsObject.fo_id] using he)
                have hb0 : b = b0 := by injection heq
                subst hb0
                right
                constructor
                · cases hdel : b.fb_deleted with
                  | false => rfl
                  | true => exact absurd (by simp [hdel]) htr
                · cases hio : b.fb_inode with
                  | some j => rfl
                  | none => exact absurd (by simp [hio]) htr
              · exact Or.inl hr
            · exact Or.inr hgood

/-- The whole sweep fold discharges every id of the snapshot. -/
theorem sweep_fold_inv (ids : List Nat) :
    ∀ st : FfsState, SweepInv ids st → SweepInv [] (ids.foldl sweepStep st) := by
  induction ids with
  | nil => intro st h; exact h
  | cons k rest ih =>
      intro st h
      exact ih (sweepStep st k) (sweepStep_inv k rest st h)

/-- On a well-formed index the sweep leaves only blocks that are not
tombstoned and whose owning inode is still present. -/
theorem sweep_blocks_clean (s : FfsState) (hg : GoodHash s) :
    ∀ b : Block, FfsObject.block b ∈ (ffs_restore_sweep s).ffs_hash →
      b.fb_deleted = false ∧ ∃ j, b.fb_inode = some j ∧
        inodePresentB (ffs_restore_sweep s) j = true := by
  intro b hb
  unfold ffs_restore_sweep at hb ⊢
  dsimp only at hb ⊢
  have hinv0 : SweepInv
      (({ s with trace := s.trace ++ [Phase.pSweep] } : FfsState).ffs_hash.map
        FfsObject.fo_id)
      { s with trace := s.trace ++ [Phase.pSweep] } := by
    refine ⟨hg.1, hg.2, ?_⟩
    intro b0 hb0
    left
    have hm : FfsObject.fo_id (FfsObject.block b0) ∈
        (({ s with trace := s.trace ++ [Phase.pSweep] } : FfsState).ffs_hash.map
          FfsObject.fo_id) := List.mem_map_of_mem _ hb0
    simpa [FfsObject.fo_id] using hm
  have hfin := sweep_fold_inv _ _ hinv0
  obtain ⟨hnd, hdang, hD⟩ := hfin
  rcases hD b hb with hR | ⟨hdel, hsome⟩
  · exact absurd hR (by simp)
  · refine ⟨hdel, ?_⟩
    cases hio : b.fb_inode with
    | none => rw [hio] at hsome; simp at hsome
    | some j =>
        refine ⟨j, rfl, ?_⟩
        exact (noDanglingHash_iff _).mp hdang b hb j hio

/-- Similar indexes share the sweep's well-formedness. -/
theorem goodCore_of_sim {l l' : List FfsObject} (hsim : HashSim l l')
    (hnd : (l.map FfsObject.fo_id).Nodup)
    (hdang : noDanglingHash l = true) :
    (l'.map FfsObject.fo_id).Nodup ∧ noDanglingHash l' = true := by
  refine ⟨by rw [hsim.1]; exact hnd, ?_⟩
  rw [noDanglingHash_iff]
  intro b hb j hj
  have hb2 := (hsim.2.1 b).mp hb
  have h := (noDanglingHash_iff l).mp hdang b hb2 j hj
  rw [hsim.2.2 j]
  exact h

/-- `GoodHash` only looks at the index. -/
theorem goodHash_of_hash_eq {s s' : FfsState} (h : s'.ffs_hash = s.ffs_hash)
    (hg : GoodHash s) : GoodHash s' := by
  unfold GoodHash at *
  rw [h]
  exact hg

/-- `GoodHash` through an id-preserving inode modification. -/
theorem good_modifyInode (s : FfsState) (id : Nat) (f : Inode → Inode)
    (hf : ∀ i : Inode, i.fi_id = id → (f i).fi_id = id) (hg : GoodHash s) :
    GoodHash (modifyInode s id f) :=
  goodCore_of_sim (hashSim_modifyInode s id f hf) hg.1 hg.2

/-- `ffs_inode_remove_child` yields a similar index. -/
theorem hashSim_remove_child (s : FfsState) (cid : Nat) :
    HashSim s.ffs_hash (ffs_inode_remove_child s cid).ffs_hash := by
  unfold ffs_inode_remove_child
  dsimp only
  split
  · split
    · rename_i p heqp
      exact hashSim_trans
        (hashSim_modifyInode s p
          (fun par => { par with fi_child_list :=
            par.fi_child_list.filter (fun x => x ≠ cid) }) (fun i hi => hi))
        (hashSim_modifyInode _ cid (fun c => { c with fi_parent := none })
          (fun i hi => hi))
    · exact hashSim_modifyInode _ cid (fun c => { c with fi_parent := none })
        (fun i hi => hi)
  · exact hashSim_modifyInode _ cid (fun c => { c with fi_parent := none })
      (fun i hi => hi)

/-- `ffs_inode_add_child` yields a similar index. -/
theorem hashSim_add_child (s : FfsState) (p c : Nat) :
    HashSim s.ffs_hash (ffs_inode_add_child s p c).ffs_hash := by
  unfold ffs_inode_add_child
  dsimp only
  exact hashSim_trans
    (hashSim_modifyInode s p
      (fun par => { par with fi_child_list := par.fi_child_list ++ [c] })
      (fun i hi => hi))
    (hashSim_modifyInode _ c (fun ch => { ch with fi_parent := some p })
      (fun i hi => hi))

/-- `GoodHash` through inserting an inode whose id is fresh. -/
theorem good_insert_inode (s : FfsState) (i : Inode)
    (hfresh : ∀ o ∈ s.ffs_hash, o.fo_id ≠ i.fi_id) (hg : GoodHash s) :
    GoodHash (ffs_hash_insert (.inode i) s) := by
  unfold GoodHash ffs_hash_insert at *
  dsimp only
  refine ⟨?_, ?_⟩
  · rw [List.map_cons]
    refine List.nodup_cons.mpr ⟨?_, hg.1⟩
    intro hmem
    rcases List.mem_map.mp hmem with ⟨o, ho, hid⟩
    exact hfresh o ho (by simpa [FfsObject.fo_id] using hid)
  · rw [noDanglingHash_iff]
    intro b hb j hj
    have hb2 : FfsObject.block b ∈ s.ffs_hash := by
      rcases List.mem_cons.mp hb with he | h
      · exact absurd he (by simp)
      · exact h
    have h := (noDanglingHash_iff _).mp hg.2 b hb2 j hj
    simp only [anyInodeWithId, List.any_cons, Bool.or_eq_true]
    right
    simpa [anyInodeWithId] using h

/-- `GoodHash` through inserting a block with a fresh id and a null owning
pointer. -/
theorem good_insert_block_none (s : FfsState) (b : Block)
    (hfresh : ∀ o ∈ s.ffs_hash, o.fo_id ≠ b.fb_id) (hnone : b.fb_inode = none)
    (hg : GoodHash s) : GoodHash (ffs_hash_insert (.block b) s) := by
  unfold GoodHash ffs_hash_insert at *
  dsimp only
  refine ⟨?_, ?_⟩
  · rw [List.map_cons]
    refine List.nodup_cons.mpr ⟨?_, hg.1⟩
    intro hmem
    rcases List.mem_map.mp hmem with ⟨o, ho, hid⟩
    exact hfresh o ho (by simpa [FfsObject.fo_id] using hid)
  · rw [noDanglingHash_iff]
    intro b' hb' j hj
    rcases List.mem_cons.mp hb' with he | h
    · have hbb : b' = b := by injection he
      subst hbb
      rw [hnone] at hj
      exact absurd hj (by simp)
    · have h2 := (noDanglingHash_iff _).mp hg.2 b' h j hj
      simp only [anyInodeWithId, List.any_cons, Bool.or_eq_true]
      right
      simpa [anyInodeWithId] using h2

/-- `GoodHash` through an in-place block rewrite preserving id and owner. -/
theorem good_modifyBlock_keepOwner (s : FfsState) (id : Nat)
    (f : Block → Block) (hf_id : ∀ b : Block, b.fb_id = id → (f b).fb_id = id)
    (hf_own : ∀ b : Block, (f b).fb_inode = b.fb_inode) (hg : GoodHash s) :
    GoodHash (modifyBlock s id f) := by
  obtain ⟨hm, ha, hor⟩ := modifyBlockList_ids s.ffs_hash id f hf_id
  unfold GoodHash modifyBlock at *
  dsimp only
  refine ⟨by rw [hm]; exact hg.1, ?_⟩
  rw [noDanglingHash_iff]
  intro b' hb' j hj
  rw [ha j]
  rcases hor b' hb' with hmem | ⟨b, hbmem, hbid, heq⟩
  · exact (noDanglingHash_iff _).mp hg.2 b' hmem j hj
  · have hj' : b.fb_inode = some j := by rw [← hf_own b, ← heq]; exact hj
    exact (noDanglingHash_iff _).mp hg.2 b hbmem j hj'

/-- `GoodHash` through linking a block to a present inode
(`ffs_inode_insert_block`). -/
theorem good_insert_block_link (s : FfsState) (iid bid : Nat)
    (hio : anyInodeWithId s.ffs_hash iid = true) (hg : GoodHash s) :
    GoodHash (ffs_inode_insert_block s iid bid) := by
  have h1 : GoodHash (modifyBlock s bid (fun b => { b with fb_inode := some iid })) := by
    obtain ⟨hm, ha, hor⟩ := modifyBlockList_ids s.ffs_hash bid
      (fun b => { b with fb_inode := some iid }) (fun b hb => hb)
    unfold GoodHash modifyBlock at *
    dsimp only
    refine ⟨by rw [hm]; exact hg.1, ?_⟩
    rw [noDanglingHash_iff]
    intro b' hb' j hj
    rw [ha j]
    rcases hor b' hb' with hmem | ⟨b, hbmem, hbid, heq⟩
    · exact (noDanglingHash_iff _).mp hg.2 b' hmem j hj
    · have hjiid : j = iid := by
        rw [heq] at hj
        simpa using hj.symm
      rw [hjiid]
      exact hio
  unfold ffs_inode_insert_block
  dsimp only
  exact goodCore_of_sim (hashSim_modifyInode _ _ _ (fun i hi => hi)) h1.1 h1.2

/-- `updNextId` does not touch the index. -/
@[simp] theorem updNextId_hash (id : Nat) (s : FfsState) :
    (updNextId id s).ffs_hash = s.ffs_hash := by
  unfold updNextId
  split <;> rfl

/-- `ffs_inode_err_free` does not touch the index. -/
@[simp] theorem ffs_inode_err_free_hash (isNew : Bool) (s : FfsState) :
    (ffs_inode_err_free isNew s).ffs_hash = s.ffs_hash := by
  unfold ffs_inode_err_free
  split <;> rfl

/-- An `enoent` inode lookup means the id is absent from the index. -/
theorem find_inode_enoent_elim (s : FfsState) (id : Nat)
    (h : ffs_hash_find_inode s id = .error .enoent) :
    ffs_hash_find s id = none := by
  unfold ffs_hash_find_inode at h
  cases hf : ffs_hash_find s id with
  | none => rfl
  | some o => cases o <;> (rw [hf] at h; simp at h)

/-- An `enoent` block lookup means the id is absent from the index. -/
theorem find_block_enoent_elim (s : FfsState) (id : Nat)
    (h : ffs_hash_find_block s id = .error .enoent) :
    ffs_hash_find s id = none := by
  unfold ffs_hash_find_block at h
  cases hf : ffs_hash_find s id with
  | none => rfl
  | some o => cases o <;> (rw [hf] at h; simp at h)

/-- A successful inode lookup exhibits the inode's presence. -/
theorem find_inode_ok_present (s : FfsState) (id : Nat) (i : Inode)
    (h : ffs_hash_find_inode s id = .ok i) :
    anyInodeWithId s.ffs_hash id = true := by
  unfold ffs_hash_find_inode at h
  cases hf : ffs_hash_find s id with
  | none => rw [hf] at h; simp at h
  | some o =>
      cases o with
      | block b => rw [hf] at h; simp at h
      | inode i0 =>
          have hmem := List.mem_of_find?_eq_some hf
          have hid : FfsObject.fo_id (.inode i0) = id := by
            simpa using List.find?_some hf
          exact List.any_eq_true.mpr
            ⟨.inode i0, hmem, by simpa [isInodeWithId] using hid⟩

/-- `GoodHash` through dummy-inode synthesis for an absent id. -/
theorem good_dummy (id : Nat) (is_dir : Bool) (s : FfsState)
    (hfresh : ffs_hash_find s id = none) (hg : GoodHash s) :
    GoodHash (ffs_restore_dummy_inode id is_dir s).2 := by
  unfold ffs_restore_dummy_inode
  split
  · exact hg
  · dsimp only
    apply good_insert_inode
    · intro o ho hid
      exact find_none_no_id _ _ hfresh o ho hid
    · exact goodHash_of_hash_eq rfl hg

/-- A successful dummy synthesis leaves the requested inode present. -/
theorem dummy_ok_present (id : Nat) (is_dir : Bool) (s : FfsState)
    (s2 : FfsState) (h : ffs_restore_dummy_inode id is_dir s = (.ok, s2)) :
    anyInodeWithId s2.ffs_hash id = true := by
  unfold ffs_restore_dummy_inode at h
  split at h
  · simp at h
  · have h2 : s2 = ffs_hash_insert
        (.inode { blankInode with
          fi_id := id, fi_refcnt := 1, fi_area_idx := FFS_AREA_ID_NONE,
          fi_dummy := true, fi_directory := is_dir })
        { s with inode_pool := s.inode_pool - 1 } := by
      have := congrArg Prod.snd h
      exact this.symm
    rw [h2]
    simp [ffs_hash_insert, anyInodeWithId, isInodeWithId]

/-- The dummy synthesis hands back its argument state on failure and a state
with one more inode on success; its returned state is similar or an
insert — in all cases `GoodHash` requires the freshness established by the
failed lookup, handled in `good_dummy`. -/
theorem good_commit (d : DiskInode) (doAdd isNew : Bool) (s : FfsState)
    (hg : GoodHash s) : GoodHash (ffs_restore_inode_commit d doAdd isNew s).2 := by
  unfold ffs_restore_inode_commit
  split
  · split
    · split
      · dsimp only
        apply goodHash_of_hash_eq (updNextId_hash _ _)
        have hac := goodCore_of_sim (hashSim_add_child s d.fdi_parent_id d.fdi_id)
          hg.1 hg.2
        split
        · exact goodHash_of_hash_eq rfl hac
        · exact hac
      · rename_i heqparent
        split
        · rename_i s1 heqdum
          dsimp only
          apply goodHash_of_hash_eq (updNextId_hash _ _)
          have hgs1 : GoodHash s1 := by
            have hgd := good_dummy d.fdi_parent_id true s
              (find_inode_enoent_elim s d.fdi_parent_id heqparent) hg
            rw [heqdum] at hgd
            exact hgd
          have hac := goodCore_of_sim
            (hashSim_add_child s1 d.fdi_parent_id d.fdi_id) hgs1.1 hgs1.2
          split
          · exact goodHash_of_hash_eq rfl hac
          · exact hac
        · rename_i e s1 hne heqdum
          dsimp only
          apply goodHash_of_hash_eq (ffs_inode_err_free_hash isNew s1)
          have hgd := good_dummy d.fdi_parent_id true s
            (find_inode_enoent_elim s d.fdi_parent_id heqparent) hg
          rw [heqdum] at hgd
          exact hgd
      · dsimp only
        exact goodHash_of_hash_eq (ffs_inode_err_free_hash isNew s) hg
    · dsimp only
      apply goodHash_of_hash_eq (updNextId_hash _ _)
      split
      · exact goodHash_of_hash_eq rfl hg
      · exact hg
  · exact goodHash_of_hash_eq (updNextId_hash _ _) hg

/-- `GoodHash` through one inode merge. -/
theorem good_restore_inode (d : DiskInode) (a o : Nat) (s : FfsState)
    (hg : GoodHash s) : GoodHash (ffs_restore_inode d a o s).2 := by
  unfold ffs_restore_inode
  split
  · rename_i old heqfind
    split
    · exact hg
    · rename_i doAdd heqrep
      dsimp only
      apply good_commit
      split
      · apply good_modifyInode _ d.fdi_id
          (fun i => ffs_inode_from_disk i d a o) (fun i hi => rfl)
        split
        · exact goodCore_of_sim (hashSim_remove_child s d.fdi_id) hg.1 hg.2
        · exact hg
      · exact hg
  · rename_i heqfind
    split
    · exact hg
    · dsimp only
      apply good_commit
      apply good_insert_inode
      · intro o2 ho2 hid
        exact find_none_no_id _ _ (find_inode_enoent_elim s d.fdi_id heqfind)
          o2 ho2 hid
      · exact goodHash_of_hash_eq rfl hg
  · exact hg

/-- `GoodHash` through attaching a new block to its owner. -/
theorem good_attach (d : DiskBlock) (s1 : FfsState) (hg : GoodHash s1) :
    GoodHash (ffs_restore_block_attach d s1).2 := by
  unfold ffs_restore_block_attach
  split
  · rename_i i0 heqfind
    dsimp only
    apply goodHash_of_hash_eq (updNextId_hash _ _)
    exact good_insert_block_link s1 d.fdb_inode_id d.fdb_id
      (find_inode_ok_present s1 d.fdb_inode_id i0 heqfind) hg
  · rename_i heqfind
    split
    · rename_i s2 heqdum
      dsimp only
      apply goodHash_of_hash_eq (updNextId_hash _ _)
      have hgs2 : GoodHash s2 := by
        have hgd := good_dummy d.fdb_inode_id false s1
          (find_inode_enoent_elim s1 d.fdb_inode_id heqfind) hg
        rw [heqdum] at hgd
        exact hgd
      exact good_insert_block_link s2 d.fdb_inode_id d.fdb_id
        (dummy_ok_present d.fdb_inode_id false s1 s2 heqdum) hgs2
    · rename_i e s2 hne heqdum
      dsimp only
      apply goodHash_of_hash_eq rfl
      have hgd := good_dummy d.fdb_inode_id false s1
        (find_inode_enoent_elim s1 d.fdb_inode_id heqfind) hg
      rw [heqdum] at hgd
      exact hgd
  · dsimp only
    exact goodHash_of_hash_eq rfl hg

/-- `GoodHash` through one block merge. -/
theorem good_restore_block (d : DiskBlock) (a o : Nat) (s : FfsState)
    (hg : GoodHash s) : GoodHash (ffs_restore_block d a o s).2 := by
  unfold ffs_restore_block
  split
  · split
    · exact hg
    · dsimp only
      apply goodHash_of_hash_eq (updNextId_hash _ _)
      split
      · exact good_modifyBlock_keepOwner s d.fdb_id _ (fun b hb => rfl)
          (fun b => rfl) hg
      · exact hg
  · rename_i heqfind
    split
    · exact hg
    · apply good_attach
      apply good_insert_block_none
      · intro o2 ho2 hid
        exact find_none_no_id _ _ (find_block_enoent_elim s d.fdb_id heqfind)
          o2 ho2 hid
      · rfl
      · exact goodHash_of_hash_eq rfl hg
  · exact hg

/-- `GoodHash` through one record merge. -/
theorem good_restore_object (d : DiskObject) (s : FfsState) (hg : GoodHash s) :
    GoodHash (ffs_restore_object d s).2 := by
  unfold ffs_restore_object
  split
  · exact good_restore_inode _ _ _ _ hg
  · split
    · exact good_restore_block _ _ _ _ hg
    · exact hg

/-- Marking an object dummy keeps its id. -/
theorem mark_fo_id (bad : Nat) (o : FfsObject) :
    (ffs_mark_dummy_obj bad o).fo_id = o.fo_id := by
  cases o with
  | inode i => simp only [ffs_mark_dummy_obj]; split <;> rfl
  | block b => simp only [ffs_mark_dummy_obj]; split <;> rfl

/-- Marking an object dummy keeps its inode-with-id test. -/
theorem mark_isInodeWithId (bad : Nat) (o : FfsObject) (j : Nat) :
    isInodeWithId (ffs_mark_dummy_obj bad o) j = isInodeWithId o j := by
  cases o with
  | inode i => simp only [ffs_mark_dummy_obj]; split <;> rfl
  | block b => simp only [ffs_mark_dummy_obj]; split <;> rfl

/-- A marked block entry descends from a block entry with the same owner. -/
theorem mark_block_origin (bad : Nat) (o : FfsObject) (b' : Block)
    (h : ffs_mark_dummy_obj bad o = .block b') :
    ∃ b : Block, o = .block b ∧ b.fb_inode = b'.fb_inode := by
  cases o with
  | inode i =>
      simp only [ffs_mark_dummy_obj] at h
      split at h <;> simp at h
  | block b =>
      refine ⟨b, rfl, ?_⟩
      simp only [ffs_mark_dummy_obj] at h
      split at h <;> (injection h with h2; rw [← h2])

/-- `GoodHash` through the marking pass. -/
theorem good_mark_bad_area (s : FfsState) (bad : Nat) (hg : GoodHash s) :
    GoodHash (ffs_restore_mark_bad_area s bad) := by
  unfold GoodHash ffs_restore_mark_bad_area at *
  dsimp only
  constructor
  · rw [List.map_map]
    have : (FfsObject.fo_id ∘ ffs_mark_dummy_obj bad) = FfsObject.fo_id := by
      funext o
      exact mark_fo_id bad o
    rw [this]
    exact hg.1
  · rw [noDanglingHash_iff]
    intro b' hb' j hj
    rcases List.mem_map.mp hb' with ⟨o, ho, hmark⟩
    rcases mark_block_origin bad o b' hmark with ⟨b, rfl, hown⟩
    have hj0 : b.fb_inode = some j := by rw [hown]; exact hj
    have hany := (noDanglingHash_iff _).mp hg.2 b ho j hj0
    rcases List.any_eq_true.mp hany with ⟨o', ho', hio'⟩
    exact List.any_eq_true.mpr
      ⟨ffs_mark_dummy_obj bad o', List.mem_map_of_mem _ ho',
       by rw [mark_isInodeWithId]; exact hio'⟩

/-- `GoodHash` through a terminated scan. -/
theorem good_scanLoopF (flash : Flash) :
    ∀ (fuel idx cur : Nat) (s : FfsState) (rc : FfsRc) (s' : FfsState),
      scanLoopF flash fuel idx cur s = some (rc, s') → GoodHash s →
      GoodHash s' := by
  intro fuel
  induction fuel with
  | zero =>
      intro idx cur s rc s' h
      exact absurd h (by simp [scanLoopF])
  | succ n ih =>
      intro idx cur s rc s' h hg
      unfold scanLoopF at h
      split at h
      · simp at h
        rw [← h.2]
        exact hg
      · split at h
        · rename_i d0 hd0
          exact ih _ _ _ _ _ h (good_restore_object d0 s hg)
        · simp at h; rw [← h.2]; exact hg
        · simp at h; rw [← h.2]; exact hg
        · simp at h; rw [← h.2]; exact hg

/-- `GoodHash` through one area's content scan. -/
theorem good_area_contents (flash : Flash) (idx : Nat) (s : FfsState)
    (hg : GoodHash s) : GoodHash (ffs_restore_area_contents flash idx s).2 := by
  unfold ffs_restore_area_contents
  split
  · exact hg
  · rename_i area harea
    cases hscan : scanLoopF flash (area.fa_length + 1) idx DISK_AREA_SIZE s with
    | none => simpa [hscan] using hg
    | some p =>
        rcases p with ⟨rc, s'⟩
        have h := good_scanLoopF flash _ idx DISK_AREA_SIZE s rc s' hscan hg
        simpa [hscan] using h

/-- `GoodHash` through one descriptor of the enumeration loop. -/
theorem good_one_area (flash : Flash) (d : AreaDesc) (s : FfsState)
    (hg : GoodHash s) : GoodHash (ffs_restore_one_area flash d s).2 := by
  unfold ffs_restore_one_area
  split
  · exact hg
  · exact hg
  · split
    · exact hg
    · rcases hn : ffs_misc_set_num_areas (s.ffs_areas.length + 1) s with ⟨rcn, s1⟩
      have hgs1 : GoodHash s1 := by
        unfold ffs_misc_set_num_areas at hn
        split at hn
        · cases hn; exact hg
        · cases hn; exact goodHash_of_hash_eq rfl hg
      cases rcn <;> dsimp only
      case ok =>
        rename_i da heq hand
        split
        · exact goodHash_of_hash_eq rfl hgs1
        · exact good_area_contents flash _ _ (goodHash_of_hash_eq rfl hgs1)
      all_goals exact hgs1

/-- `GoodHash` through the enumeration loop. -/
theorem good_restore_areas (flash : Flash) :
    ∀ (descs : List AreaDesc) (s : FfsState), GoodHash s →
      GoodHash (ffs_restore_areas flash descs s).2 := by
  intro descs
  induction descs with
  | nil => intro s hg; exact hg
  | cons d rest ih =>
      intro s hg
      unfold ffs_restore_areas
      split
      · exact hg
      · rcases h1 : ffs_restore_one_area flash d s with ⟨rc1, s1⟩
        have hgs1 : GoodHash s1 := by
          have := good_one_area flash d s hg
          rw [h1] at this
          exact this
        cases rc1 <;> dsimp only
        case ok => exact ih s1 hgs1
        all_goals exact hgs1

/-- `ffs_format_area` does not touch the index. -/
@[simp] theorem ffs_format_area_hash (flash : Flash) (idx : Nat)
    (s : FfsState) : (ffs_format_area flash idx s).2.ffs_hash = s.ffs_hash := by
  unfold ffs_format_area
  split
  · rfl
  · split <;> rfl

/-- `GoodHash` through the corrupt-scratch repair. -/
theorem good_corrupt_flash (flash : Flash) (s : FfsState) (hg : GoodHash s) :
    GoodHash (ffs_restore_corrupt_flash flash s).2 := by
  unfold ffs_restore_corrupt_flash
  split
  · exact hg
  · rename_i good bad hpair
    dsimp only
    have hgm : GoodHash (ffs_restore_mark_bad_area s bad) :=
      good_mark_bad_area s bad hg
    split
    · rename_i s2 hs
      have hgs2 : GoodHash s2 := by
        have h := good_area_contents flash good
          (ffs_restore_mark_bad_area s bad) hgm
        rw [hs] at h
        exact h
      split
      · rename_i s3 hf
        have hh := ffs_format_area_hash flash bad s2
        rw [hf] at hh
        exact goodHash_of_hash_eq rfl (goodHash_of_hash_eq hh hgs2)
      · rename_i e s3 hne hf
        have hh := ffs_format_area_hash flash bad s2
        rw [hf] at hh
        exact goodHash_of_hash_eq hh hgs2
    · rename_i e s2 hne hs
      have h := good_area_contents flash good
        (ffs_restore_mark_bad_area s bad) hgm
      rw [hs] at h
      exact h

/-- `GoodHash` through the scratch-recovery phase. -/
theorem good_scratch_phase (flash : Flash) (s : FfsState) (hg : GoodHash s) :
    GoodHash (ffs_restore_scratch_phase flash s).2 := by
  unfold ffs_restore_scratch_phase
  split
  · exact good_corrupt_flash flash s hg
  · exact hg

/-- Scratch validation does not touch the index. -/
theorem ffs_misc_validate_scratch_hash (s : FfsState) :
    (ffs_misc_validate_scratch s).2.ffs_hash = s.ffs_hash := by
  unfold ffs_misc_validate_scratch
  dsimp only
  split
  · rfl
  · split
    · rfl
    · split <;> rfl

/-- Root validation does not touch the index. -/
theorem ffs_misc_validate_root_hash (s : FfsState) :
    (ffs_misc_validate_root s).2.ffs_hash = s.ffs_hash := by
  unfold ffs_misc_validate_root
  dsimp only
  split <;> rfl

/-- The size computation does not touch the index. -/
theorem ffs_misc_set_max_block_data_size_hash (s : FfsState) :
    (ffs_misc_set_max_block_data_size s).ffs_hash = s.ffs_hash := rfl

/-- The reset state is well formed. -/
theorem good_reset : GoodHash ffs_misc_reset := by
  constructor
  · simp [ffs_misc_reset]
  · rfl

/-- A successful full restore ends with the index produced by the sweep of a
well-formed pre-sweep state. -/
theorem restore_full_ok_structure (flash : Flash) (descs : List AreaDesc)
    (h : (ffs_restore_full flash descs).1 = FfsRc.ok) :
    ∃ s3 : FfsState, GoodHash s3 ∧
      (ffs_restore_full flash descs).2.ffs_hash =
        (ffs_restore_sweep s3).ffs_hash := by
  revert h
  unfold ffs_restore_full
  rcases h1 : ffs_restore_areas flash descs ffs_misc_reset with ⟨rc1, s1⟩
  have hgs1 : GoodHash s1 := by
    have := good_restore_areas flash descs ffs_misc_reset good_reset
    rw [h1] at this
    exact this
  cases rc1 <;> dsimp only
  case ok =>
    rcases h2 : ffs_restore_scratch_phase flash s1 with ⟨rc2, s2⟩
    have hgs2 : GoodHash s2 := by
      have := good_scratch_phase flash s1 hgs1
      rw [h2] at this
      exact this
    cases rc2 <;> dsimp only
    case ok =>
      rcases h3 : ffs_misc_validate_scratch s2 with ⟨rc3, s3⟩
      have hgs3 : GoodHash s3 := by
        have hh := ffs_misc_validate_scratch_hash s2
        rw [h3] at hh
        exact goodHash_of_hash_eq hh hgs2
      cases rc3 <;> dsimp only
      case ok =>
        rcases h4 : ffs_misc_validate_root (ffs_restore_sweep s3) with ⟨rc4, s4⟩
        have hh4 : s4.ffs_hash = (ffs_restore_sweep s3).ffs_hash := by
          have hh := ffs_misc_validate_root_hash (ffs_restore_sweep s3)
          rw [h4] at hh
          exact hh
        cases rc4 <;> dsimp only
        case ok =>
          intro _
          exact ⟨s3, hgs3, by
            rw [ffs_misc_set_max_block_data_size_hash]
            exact hh4⟩
        all_goals (intro hcon; simp at hcon)
      all_goals (intro hcon; simp at hcon)
    all_goals (intro hcon; simp at hcon)
  all_goals (intro hcon; simp at hcon)

/-- C2 (amended): the sweep deletes every block whose `DELETED` flag is set
or whose owning-inode pointer is null (a block whose only mark is the
`DUMMY` flag is NOT deleted), and deletes the blocks of every inode it
deletes; consequently, on a well-formed index — and in particular after any
successful `ffs_restore_full` — every block remaining has `DELETED` clear
and its owning inode present in the index. -/
theorem claim_C2_amended_sweep_blocks :
    (∀ s : FfsState, GoodHash s →
      (∀ b : Block, (b.fb_deleted = true ∨ b.fb_inode = none) →
        FfsObject.block b ∉ (ffs_restore_sweep s).ffs_hash) ∧
      (∀ b : Block, FfsObject.block b ∈ (ffs_restore_sweep s).ffs_hash →
        b.fb_deleted = false ∧ ∃ j, b.fb_inode = some j ∧
          inodePresentB (ffs_restore_sweep s) j = true)) ∧
    (∀ (flash : Flash) (descs : List AreaDesc),
      (ffs_restore_full flash descs).1 = FfsRc.ok →
      ∀ b : Block,
        FfsObject.block b ∈ (ffs_restore_full flash descs).2.ffs_hash →
        b.fb_deleted = false ∧ ∃ j, b.fb_inode = some j ∧
          inodePresentB (ffs_restore_full flash descs).2 j = true) := by
  constructor
  · intro s hg
    refine ⟨?_, sweep_blocks_clean s hg⟩
    intro b htrash hb
    have h := sweep_blocks_clean s hg b hb
    rcases htrash with hd | hn
    · rw [h.1] at hd
      exact absurd hd (by simp)
    · rcases h.2 with ⟨j, hj, _⟩
      rw [hn] at hj
      exact absurd hj (by simp)
  · intro flash descs hok b hb
    obtain ⟨s3, hg3, heq⟩ := restore_full_ok_structure flash descs hok
    rw [heq] at hb
    have h := sweep_blocks_clean s3 hg3 b hb
    refine ⟨h.1, ?_⟩
    rcases h.2 with ⟨j, hj, hpres⟩
    refine ⟨j, hj, ?_⟩
    unfold inodePresentB at hpres ⊢
    rw [heq]
    exact hpres

/-- A block record owned by the root inode. -/
def blockRec2 : DiskBlock :=
  { fdb_id := 2, fdb_seq := 0, fdb_inode_id := 1, fdb_deleted := false,
    fdb_dummy := false, fdb_data_len := 4, fdb_data := 9 }

/-- Flash image holding a root record and one data block owned by it. -/
def exFlashC2run : Flash :=
  { headerAt := fun off =>
      if off = 0 then .ok { fda_id := 0, fda_gc_seq := 0 }
      else if off = 500 then .ok { fda_id := FFS_AREA_ID_NONE, fda_gc_seq := 0 }
      else .badMagic,
    cellAt := fun aoff rel =>
      if aoff = 0 && rel = 8 then .inodeRec recRoot1
      else if aoff = 0 && rel = 28 then .blockRec blockRec2
      else .erased,
    canFormat := fun _ => true }

/-- Area descriptors for `exFlashC2run`. -/
def exDescsC2run : List AreaDesc :=
  [{ fad_offset := 0, fad_length := 60 }, { fad_offset := 500, fad_length := 60 }]

/-- The RAM block restored from `blockRec2`. -/
def exFinalBlockC2 : Block :=
  { fb_id := 2, fb_seq := 0, fb_area_idx := 0, fb_area_offset := 28,
    fb_deleted := false, fb_dummy := false, fb_data_len := 4, fb_data := 9,
    fb_inode := some 1 }

/-- Witness for the amended C2: the dummy block of the counterexample state
survives the sweep with a present owner, and the block restored by a
successful full run is kept undeleted with its owner present. -/
theorem claim_C2_amended_witness :
    (GoodHash exStateC2 ∧
     FfsObject.block exDummyBlock ∈ (ffs_restore_sweep exStateC2).ffs_hash ∧
     (exDummyBlock.fb_deleted = false ∧ ∃ j, exDummyBlock.fb_inode = some j ∧
       inodePresentB (ffs_restore_sweep exStateC2) j = true)) ∧
    ((ffs_restore_full exFlashC2run exDescsC2run).1 = FfsRc.ok ∧
     FfsObject.block exFinalBlockC2 ∈
       (ffs_restore_full exFlashC2run exDescsC2run).2.ffs_hash ∧
     (exFinalBlockC2.fb_deleted = false ∧ ∃ j,
       exFinalBlockC2.fb_inode = some j ∧
       inodePresentB (ffs_restore_full exFlashC2run exDescsC2run).2 j = true)) :=
  ⟨⟨⟨by decide, by decide⟩, by decide,
    (claim_C2_amended_sweep_blocks.1 exStateC2 ⟨by decide, by decide⟩).2
      exDummyBlock (by decide)⟩,
   ⟨by decide, by decide,
    claim_C2_amended_sweep_blocks.2 exFlashC2run exDescsC2run (by decide)
      exFinalBlockC2 (by decide)⟩⟩
